import Mathlib

/-!
gb-supervisor: the watchdog and its line protocol.

A shallow embedding of `src/gb-supervisor.c`.

* The forked child of `gb_supervisor_run` (the watchdog, source lines 245-291) is a
  state machine over the results of `g_io_channel_read_line_string`.
* The parent side (`gb_supervisor_send_command`, `gb_supervisor_add_pid`,
  `gb_supervisor_add_subprocess`, `gb_supervisor_launch`, `gb_supervisor_run`,
  `gb_supervisor_shutdown`) is a state transformer over the private struct and an
  explicit record of what the process did to the outside world.

Library routines the source calls (`sscanf`, `printf`-style formatting, `GArray`) are
embedded next to the code that calls them, each with its C / GLib behaviour spelled out.
Machine integers are `Int` / `Nat` with explicit reduction modulo `2^32` or `2^64`.
-/

namespace GbSupervisor

/-! ## Machine integers -/

/-- `GPid` is a C `int` on Unix: a signed 32-bit value. -/
abbrev GPid := Int

/-- The values a `GPid` variable can hold: `G_MININT .. G_MAXINT`. -/
def isGPid (p : Int) : Prop := -2147483648 ≤ p ∧ p ≤ 2147483647

instance (p : Int) : Decidable (isGPid p) := by
  unfold isGPid; exact inferInstance

/-- The cast `(guint)pid`: the same 32 bits read as unsigned. -/
def toGuint (pid : GPid) : Nat := (pid % 4294967296).toNat

/-- Storing an unsigned 32-bit pattern through an `int *`, as `sscanf ("%u", &pid)` does
with a `GPid pid`, and the cast `(GPid)val` of a wider unsigned value: the low 32 bits
read as signed. -/
def ofGuint (u : Nat) : GPid :=
  if u % 4294967296 < 2147483648 then ((u % 4294967296 : Nat) : Int)
  else ((u % 4294967296 : Nat) : Int) - 4294967296

/-- `ULONG_MAX` on LP64. -/
def ULONG_MAX : Nat := 18446744073709551615

/-- `SIGTERM`. -/
def SIGTERM : Nat := 15

/-- `EXIT_SUCCESS`. -/
def EXIT_SUCCESS : Nat := 0

/-! ## `sscanf` -/

/-- C `isspace` in the "C" locale. -/
def isspace (c : Char) : Bool :=
  c == ' ' || c == '\t' || c == '\n' || c == '\x0b' || c == '\x0c' || c == '\r'

/-- C `isdigit`. -/
def isdigit (c : Char) : Bool := c.isDigit

/-- A white-space directive, and the white space skipped before a numeric conversion:
consumes every leading white-space character (possibly none). -/
def skipSpace : List Char → List Char
  | [] => []
  | c :: cs => if isspace c then skipSpace cs else c :: cs

/-- The longest run of decimal digits at the head of the input, accumulated in base 10;
returns the value and the unread rest. -/
def scanDigits : Nat → List Char → Nat × List Char
  | acc, [] => (acc, [])
  | acc, c :: cs =>
    if isdigit c then scanDigits (acc * 10 + (c.toNat - 48)) cs else (acc, c :: cs)

/-- The value `strtoul` returns for a digit string of mathematical value `n` with an
optional minus sign (LP64 glibc): out-of-range saturates to `ULONG_MAX`, a minus sign
negates in `unsigned long`. -/
def strtoul (neg : Bool) (n : Nat) : Nat :=
  if ULONG_MAX < n then ULONG_MAX
  else if neg then (18446744073709551616 - n) % 18446744073709551616
  else n

/-- Outcome of one numeric conversion directive. -/
inductive Conv where
  /-- the input ended before any character of the field -/
  | inputFailure
  /-- the next characters do not form a number -/
  | matchFailure
  /-- a number was read: its `unsigned long` value and the unread rest -/
  | ok (value : Nat) (rest : List Char)
  deriving DecidableEq, Repr

/-- The digits of a `%u` / `%lu` field after the optional sign: at least one is needed. -/
def scanNumber (neg : Bool) : List Char → Conv
  | [] => .matchFailure
  | c :: cs =>
    if isdigit c then
      let r := scanDigits 0 (c :: cs)
      .ok (strtoul neg r.1) r.2
    else .matchFailure

/-- An unsigned decimal conversion (`%u`, `%lu`): skips white space, accepts an optional
sign, then reads decimal digits as `strtoul` with base 10 does. Characters after the
number are left unread. -/
def scanUnsigned (s : List Char) : Conv :=
  match skipSpace s with
  | [] => .inputFailure
  | '-' :: cs => scanNumber true cs
  | '+' :: cs => scanNumber false cs
  | c :: cs => scanNumber false (c :: cs)

/-- What `sscanf (str, "%c %u", &mode, &pid)` returns and assigns. -/
inductive ScanLine where
  /-- input failure before the first conversion: returns `EOF`, nothing assigned -/
  | eof
  /-- only `mode` assigned: returns 1 -/
  | one (mode : Char)
  /-- `mode` and `pid` assigned: returns 2 -/
  | two (mode : Char) (pid : GPid)
  deriving DecidableEq, Repr

/-- The return value of the `sscanf` call. -/
def ScanLine.ret : ScanLine → Int
  | .eof => -1
  | .one _ => 1
  | .two _ _ => 2

/-- `sscanf (str->str, "%c %u", &mode, &pid)` (source line 256). `%c` takes the next
character whatever it is; the blank in the format skips any white space, also none;
`%u` converts an unsigned decimal integer which is stored through `&pid`, a `GPid *`. -/
def sscanf_mode_pid (str : List Char) : ScanLine :=
  match str with
  | [] => .eof
  | mode :: rest =>
    match scanUnsigned (skipSpace rest) with
    | .ok value _ => .two mode (ofGuint value)
    | _ => .one mode

/-- `sscanf (identifier, "%" G_GUINT64_FORMAT, &val)` (source line 329): the return value
is 1 with `val` assigned, or not 1. -/
def sscanf_guint64 (identifier : List Char) : Option Nat :=
  match scanUnsigned identifier with
  | .ok value _ => some value
  | _ => none

/-! ## `printf`-style formatting -/

/-- The conversion `%u` of `g_strdup_printf`: the decimal digits of an unsigned value. -/
def fmtUnsigned (u : Nat) : List Char := (Nat.toDigits 10 u)

/-- `g_strdup_printf ("a %u", (guint)pid)` (source lines 222 and 310). -/
def fmtAddPid (pid : GPid) : List Char := 'a' :: ' ' :: fmtUnsigned (toGuint pid)

/-- A line of the wire format `<mode> <id>\n`: the mode character, a blank, the id as an
unsigned decimal integer (the `(guint)` value of the pid), a newline. -/
def protocolLine (mode : Char) (id : GPid) : List Char :=
  mode :: ' ' :: fmtUnsigned (toGuint id) ++ ['\n']

/-! ## `GArray` of `GPid` -/

/-- Why an execution of the model stopped without a result. -/
inductive Fault where
  /-- an array element outside `0 .. len-1` was touched -/
  | badIndex
  /-- the iteration budget given to a loop was used up -/
  | noFuel
  /-- a variable was read that had never been given a value -/
  | uninitialised
  deriving DecidableEq, Repr

/-- `g_array_index (array, GPid, i)`: the macro does no bounds check, so an index outside
the array is an invalid access. -/
def g_array_index (array : List GPid) (i : Nat) : Except Fault GPid :=
  match array[i]? with
  | some v => .ok v
  | none => .error .badIndex

/-- `g_array_append_val (array, pid)`. -/
def g_array_append_val (array : List GPid) (pid : GPid) : List GPid := array ++ [pid]

/-- `g_array_remove_index_fast (array, index)`: unless the element is the last one, the
last element is copied over it; then the length drops by one. -/
def g_array_remove_index_fast (array : List GPid) (index : Nat) :
    Except Fault (List GPid) :=
  if index < array.length then
    if index ≠ array.length - 1 then
      match g_array_index array (array.length - 1) with
      | .ok last => .ok (array.set index last).dropLast
      | .error e => .error e
    else .ok array.dropLast
  else .error .badIndex

/-! ## The watchdog (child side of `gb_supervisor_run`) -/

/-- `GIOStatus`. -/
inductive GIOStatus where
  | error
  | normal
  | eof
  | again
  deriving DecidableEq, Repr

/-- What one call of `g_io_channel_read_line_string (channel, str, NULL, NULL)` gives:
the status and the contents of `str`. -/
structure ReadLine where
  status : GIOStatus
  str : List Char
  deriving DecidableEq, Repr

/-- A line read with `G_IO_STATUS_NORMAL`. -/
def ReadLine.line (s : String) : ReadLine := ⟨.normal, s.toList⟩

/-- The read that sees the write end closed. -/
def ReadLine.closed : ReadLine := ⟨.eof, []⟩

/-- The watchdog process. -/
inductive Watchdog where
  /-- at label `again`, about to read, holding `array` -/
  | listening (array : List GPid)
  /-- after `exit (status)`; `signalled` are the `kill (pid, sig)` calls made, in order -/
  | exited (signalled : List (GPid × Nat)) (status : Nat)
  /-- the model could not continue -/
  | stuck (why : Fault)
  deriving DecidableEq, Repr

/-- The loop of source lines 267-274, entered at index `i`:
`for (; i < array->len; i++) if (g_array_index (array, GPid, i) == pid)`
`{ g_array_remove_index_fast (array, i); break; }`. -/
def removeLoop (pid : GPid) (array : List GPid) : Nat → Nat → Except Fault (List GPid)
  | 0, _ => .error .noFuel
  | fuel + 1, i =>
    if i < array.length then
      match g_array_index array i with
      | .error e => .error e
      | .ok v =>
        if v = pid then g_array_remove_index_fast array i
        else removeLoop pid array fuel (i + 1)
    else .ok array

/-- The loop of source lines 284-289, entered at index `i` with `sent` already signalled:
`for (; i < array->len; i++) { pid = g_array_index (array, GPid, i); kill (pid, SIGTERM); }`. -/
def killLoop (array : List GPid) : Nat → Nat → List (GPid × Nat) →
    Except Fault (List (GPid × Nat))
  | 0, _, _ => .error .noFuel
  | fuel + 1, i, sent =>
    if i < array.length then
      match g_array_index array i with
      | .error e => .error e
      | .ok pid => killLoop array fuel (i + 1) (sent ++ [(pid, SIGTERM)])
    else .ok sent

/-- Label `kill_targets` (source lines 282-291): signal every entry, then
`exit (EXIT_SUCCESS)`. -/
def kill_targets (array : List GPid) : Watchdog :=
  match killLoop array (array.length + 1) 0 [] with
  | .ok sent => .exited sent EXIT_SUCCESS
  | .error e => .stuck e

/-- One pass from label `again` to the next `goto` (source lines 248-280). -/
def watchdogStep (array : List GPid) (r : ReadLine) : Watchdog :=
  if r.status ≠ GIOStatus.normal then kill_targets array
  else
    let s := sscanf_mode_pid r.str
    if 2 ≠ s.ret then kill_targets array
    else
      match s with
      | .two mode pid =>
        if mode = 'a' then .listening (g_array_append_val array pid)
        else if mode = 'r' then
          match removeLoop pid array (array.length + 1) 0 with
          | .ok array' => .listening array'
          | .error e => .stuck e
        else kill_targets array
      | _ => kill_targets array

/-- The watchdog fed the successive results of its reads. With no read left it is
blocked in the read, still listening. -/
def watchdogRun : Watchdog → List ReadLine → Watchdog
  | .listening array, r :: rs => watchdogRun (watchdogStep array r) rs
  | w, _ => w

/-- The watchdog as forked: `array = g_array_new (...)` is empty (source line 246). -/
def watchdogInit : Watchdog := .listening []

/-! ## The parent side -/

/-- A `GSubprocessLauncher`, by identity (the hash table uses `g_direct_hash`). -/
abbrev Launcher := Nat

/-- The `GbSupervisorPrivate` struct (source lines 29-36). `channel` holds the file
descriptor the `GIOChannel` wraps, `none` for `NULL`. -/
structure GbSupervisorPrivate where
  launchers : List (Launcher × List (List Char))
  channel : Option Nat
  pids : List GPid
  pid : GPid
  running : Bool
  deriving DecidableEq, Repr

/-- The application process: the supervisor's private data together with a record of
what the process has done to the outside world. -/
structure Parent where
  priv : GbSupervisorPrivate
  /-- number of pipes created by `pipe` -/
  pipesMade : Nat
  /-- pids of the processes created by `fork`, in order -/
  forked : List GPid
  /-- each `g_io_channel_write_chars`: the descriptor and the bytes, in order -/
  written : List (Nat × List Char)
  /-- descriptors closed, in order -/
  closedFds : List Nat
  /-- identifiers of the children with a `g_subprocess_wait_async` registered -/
  waits : List (List Char)
  deriving DecidableEq, Repr

/-- What the operating system answers during one call into the supervisor. -/
structure Env where
  /-- `pipe (pipefds)`: `none` when it returns non-zero, else `(pipefds[0], pipefds[1])` -/
  pipe : Option (Nat × Nat)
  /-- the return value of `fork ()` -/
  fork : Int
  /-- `g_subprocess_launcher_spawnv`: `none` on failure, else the child's identifier -/
  spawnv : Launcher → List (List Char) → Option (List Char)

/-- `gb_supervisor_new` followed by `gb_supervisor_init` (source lines 387-391, 415-427):
zeroed private data, an empty `pids` array and an empty launcher table. -/
def gb_supervisor_new : Parent :=
  { priv := { launchers := [], channel := none, pids := [], pid := 0, running := false },
    pipesMade := 0, forked := [], written := [], closedFds := [], waits := [] }

/-- `gb_supervisor_send_command` (source lines 43-62): the command plus a newline is
written to `priv->channel` in one `g_io_channel_write_chars` and flushed. With a `NULL`
channel GLib's precondition check returns without writing. -/
def gb_supervisor_send_command (p : Parent) (command : List Char) : Parent :=
  let str := command ++ ['\n']
  match p.priv.channel with
  | some fd => { p with written := p.written ++ [(fd, str)] }
  | none => p

/-- `wait_cb` (source lines 64-93); `ret` is what `g_subprocess_wait_finish` returned.
`GError *error` is declared without a value (line 73). When the wait finished
successfully `error` is not touched and the command `r <identifier>` is sent. When the
wait failed, the library reads `*error` before it would store the error (it does not
overwrite a pointer that is not `NULL`), and lines 83-84 read `error->message` and free
`error`: the variable is read without ever having been given a value, so the execution
has no defined continuation and line 90 is not reached in the embedding. -/
def wait_cb (p : Parent) (identifier : List Char) (ret : Bool) : Except Fault Parent :=
  if ret then .ok (gb_supervisor_send_command p ('r' :: ' ' :: identifier))
  else .error .uninitialised

/-- `gb_supervisor_launch` (source lines 95-138). -/
def gb_supervisor_launch (env : Env) (p : Parent) (launcher : Launcher)
    (argv : List (List Char)) : Parent :=
  match env.spawnv launcher argv with
  | none => p
  | some identifier =>
    let p1 := gb_supervisor_send_command p ('a' :: ' ' :: identifier)
    { p1 with waits := p1.waits ++ [identifier] }

/-- The loop of source lines 219-225, entered at index `i`:
`for (; i < priv->pids->len; i++) { pid = g_array_index (priv->pids, GPid, i); ... }`. -/
def sendPidsLoop : Nat → Nat → Parent → Except Fault Parent
  | 0, _, _ => .error .noFuel
  | fuel + 1, i, p =>
    if i < p.priv.pids.length then
      match g_array_index p.priv.pids i with
      | .error e => .error e
      | .ok pid => sendPidsLoop fuel (i + 1) (gb_supervisor_send_command p (fmtAddPid pid))
    else .ok p

/-- How a call of `gb_supervisor_run` ends for the process that executes it. -/
inductive RunOutcome where
  /-- the function returned `ret` to the application -/
  | returned (ret : Bool) (p : Parent)
  /-- `fork` returned 0: this process is the watchdog, which never returns -/
  | child (w : Watchdog)
  /-- the model could not continue -/
  | stuck (why : Fault)
  deriving DecidableEq, Repr

/-- `gb_supervisor_run` up to the point where parent and child part ways (source lines
140-246); the child continues as `watchdogRun watchdogInit`. -/
def gb_supervisor_run (env : Env) (p : Parent) : RunOutcome :=
  match env.pipe with
  | none => .returned false p
  | some (rfd, wfd) =>
    let p := { p with pipesMade := p.pipesMade + 1 }
    if env.fork = -1 then
      .returned false { p with closedFds := p.closedFds ++ [rfd, wfd] }
    else if env.fork ≠ 0 then
      let p := { p with
        priv := { p.priv with pid := env.fork, channel := some wfd, running := true },
        forked := p.forked ++ [env.fork],
        closedFds := p.closedFds ++ [rfd] }
      let p := p.priv.launchers.foldl
        (fun q kv => gb_supervisor_launch env q kv.1 kv.2) p
      match sendPidsLoop (p.priv.pids.length + 1) 0 p with
      | .ok p => .returned true p
      | .error e => .stuck e
    else .child watchdogInit

/-- `gb_supervisor_add_pid` (source lines 296-316). -/
def gb_supervisor_add_pid (p : Parent) (pid : GPid) : Parent :=
  if pid = 0 then p
  else if p.priv.running then gb_supervisor_send_command p (fmtAddPid pid)
  else { p with priv := { p.priv with pids := g_array_append_val p.priv.pids pid } }

/-- `gb_supervisor_add_subprocess` (source lines 318-335); `identifier` is what
`g_subprocess_get_identifier` returned. -/
def gb_supervisor_add_subprocess (p : Parent) (identifier : List Char) : Parent :=
  match sscanf_guint64 identifier with
  | some val => gb_supervisor_add_pid p (ofGuint val)
  | none => p

/-- `g_hash_table_insert` on the launcher table: an existing key gets the new value. -/
def launchersInsert (t : List (Launcher × List (List Char))) (launcher : Launcher)
    (argv : List (List Char)) : List (Launcher × List (List Char)) :=
  if t.any (fun kv => kv.1 == launcher) then
    t.map (fun kv => if kv.1 == launcher then (launcher, argv) else kv)
  else t ++ [(launcher, argv)]

/-- `gb_supervisor_add_launcher` (source lines 347-367). -/
def gb_supervisor_add_launcher (env : Env) (p : Parent) (launcher : Launcher)
    (argv : List (List Char)) : Parent :=
  let p := { p with priv := { p.priv with
    launchers := launchersInsert p.priv.launchers launcher argv } }
  if p.priv.running then gb_supervisor_launch env p launcher argv else p

/-- `gb_supervisor_shutdown` (source lines 369-385): `g_clear_pointer` drops the only
reference to the channel, which closes its descriptor (close-on-unref is set), and the
running flag is cleared. -/
def gb_supervisor_shutdown (p : Parent) : Parent :=
  let closed := match p.priv.channel with
    | some fd => p.closedFds ++ [fd]
    | none => p.closedFds
  { p with priv := { p.priv with channel := none, running := false },
           closedFds := closed }

/-- A call into the public interface that takes no launcher. -/
inductive Call where
  | add_pid (pid : GPid)
  | add_subprocess (identifier : List Char)
  | run (env : Env)
  | shutdown

/-- The application process after one call; `none` when the process does not come back
from the call as the application (it became the watchdog, or the model got stuck). -/
def applyCall (p : Parent) : Call → Option Parent
  | .add_pid pid => some (gb_supervisor_add_pid p pid)
  | .add_subprocess identifier => some (gb_supervisor_add_subprocess p identifier)
  | .run env =>
    match gb_supervisor_run env p with
    | .returned _ p' => some p'
    | _ => none
  | .shutdown => some (gb_supervisor_shutdown p)

/-- The application process after a sequence of calls. -/
def applyCalls : Parent → List Call → Option Parent
  | p, [] => some p
  | p, c :: cs =>
    match applyCall p c with
    | some p' => applyCalls p' cs
    | none => none

/-! ## The pipe between parent and watchdog -/

/-- The bytes written to descriptor `fd`, in order, as one stream. -/
def bytesWritten (p : Parent) (fd : Nat) : List Char :=
  ((p.written.filter (fun w => w.1 == fd)).map (fun w => w.2)).flatten

/-- The stream cut into lines as `g_io_channel_read_line_string` returns them, terminator
included; `cur` is the part of the current line already seen. A last line without
terminator is returned as it is. Only `\n` is taken as terminator here. -/
def splitLines : List Char → List Char → List (List Char)
  | cur, [] => if cur.isEmpty then [] else [cur]
  | cur, c :: cs =>
    if c = '\n' then (cur ++ ['\n']) :: splitLines [] cs else splitLines (cur ++ [c]) cs

/-- The reads of the watchdog at the other end of `fd` while the write end stays open:
one read with normal status for each line of the stream. -/
def readsFrom (p : Parent) (fd : Nat) : List ReadLine :=
  (splitLines [] (bytesWritten p fd)).map (fun l => ⟨.normal, l⟩)

/-- An operating system that gives the pipe `(rfd, wfd)`, the child `child` and spawns
nothing. -/
def plainEnv (rfd wfd : Nat) (child : Int) : Env :=
  { pipe := some (rfd, wfd), fork := child, spawnv := fun _ _ => none }

/-- A supervisor that is running: pid 100 was registered, then `gb_supervisor_run`
succeeded with pipe `(3, 4)` and watchdog 4242. -/
def runningSupervisor : Parent :=
  { priv := { launchers := [], channel := some 4, pids := [100], pid := 4242,
              running := true },
    pipesMade := 1, forked := [4242], written := [(4, "a 100\n".toList)],
    closedFds := [3], waits := [] }

/-- The line of the parent that adds a valid non-zero pid. -/
def addsNonZero (line : List Char) : Prop :=
  ∃ pid : GPid, isGPid pid ∧ pid ≠ 0 ∧ line = protocolLine 'a' pid ∧
    sscanf_mode_pid line = .two 'a' pid

/-- The watchdog's live set after the pids `ids` were given to `gb_supervisor_add_pid`
on a new supervisor, `gb_supervisor_run` returned `TRUE`, and the watchdog read every
line the parent wrote to `wfd`; `none` if one of these did not happen. -/
def liveAfterStart (ids : List GPid) (env : Env) (wfd : Nat) : Option (List GPid) :=
  match gb_supervisor_run env (ids.foldl gb_supervisor_add_pid gb_supervisor_new) with
  | .returned true p =>
    match watchdogRun watchdogInit (readsFrom p wfd) with
    | .listening live => some live
    | _ => none
  | _ => none

/-- What holds of the application process along calls that involve no launcher: the
launcher table is empty, the pending pids are valid and non-zero, and every write is a
line that adds a valid non-zero pid. -/
def NoZero (p : Parent) : Prop :=
  p.priv.launchers = [] ∧ (∀ pid ∈ p.priv.pids, isGPid pid ∧ pid ≠ 0) ∧
    ∀ w ∈ p.written, addsNonZero w.2

/-- The pipe behind the channel as the kernel holds it. `pipe` (source line 165) sets no
close-on-exec flag, so besides the parent other processes may hold the write end: the
watchdog closes its own copy (source line 240), any other process that inherited the
descriptor is counted in `otherWriters`. -/
structure Pipe where
  /-- the parent's descriptor of the write end, the one `priv->channel` wraps -/
  wfd : Nat
  /-- the parent has `wfd` open -/
  parentOpen : Bool
  /-- descriptors of the write end open in processes other than the parent -/
  otherWriters : Nat
  /-- the lines written and not yet read by the watchdog -/
  unread : List (List Char)
  deriving DecidableEq, Repr

/-- What `close (fd)` in the parent does to the pipe: it closes the parent's write end if
`fd` is that descriptor and is still open. -/
def Pipe.parentCloses (k : Pipe) (fd : Nat) : Pipe :=
  if k.parentOpen = true ∧ fd = k.wfd then { k with parentOpen := false } else k

/-- The pipe after the parent closed the descriptors `fds`, in order. -/
def Pipe.afterCloses (k : Pipe) (fds : List Nat) : Pipe := fds.foldl Pipe.parentCloses k

/-- The descriptors closed by the parent on the way from `p` to `p'`: what was added to
the record of closes. -/
def closedBetween (p p' : Parent) : List Nat := p'.closedFds.drop p.closedFds.length

/-- The reads the watchdog gets from the pipe: the unread lines with normal status, and
after them the read that sees the write end closed if no process holds it any more.
While some process holds the write end, the watchdog blocks after the last line. -/
def Pipe.reads (k : Pipe) : List ReadLine :=
  k.unread.map (fun l => ⟨.normal, l⟩) ++
    (if k.parentOpen = false ∧ k.otherWriters = 0 then [ReadLine.closed] else [])

/-- The pipe behind the channel `fd` of a running supervisor: the parent holds the write
end, `others` further descriptors of it are open elsewhere, `unread` is still to be read. -/
def channelPipe (fd others : Nat) (unread : List (List Char)) : Pipe :=
  { wfd := fd, parentOpen := true, otherWriters := others, unread := unread }

/-- An operating system that gives the pipe `(rfd, wfd)`, the child `child`, and in which
every spawn succeeds with a child of identifier `identifier`. -/
def spawningEnv (rfd wfd : Nat) (child : Int) (identifier : List Char) : Env :=
  { pipe := some (rfd, wfd), fork := child, spawnv := fun _ _ => some identifier }

/-- `g_strdup_printf ("a %s", identifier)` (source line 128) and
`g_strdup_printf ("r %s", identifier)` (source line 88), with the newline that
`gb_supervisor_send_command` appends. -/
def identifierLine (mode : Char) (identifier : List Char) : List Char :=
  mode :: ' ' :: identifier ++ ['\n']

/-! ## The protocol as the specification words it -/

/-- The value of a string of decimal digits read left to right from `acc`. -/
def digitsValue (acc : Nat) (ds : List Char) : Nat :=
  ds.foldl (fun a c => a * 10 + (c.toNat - 48)) acc

/-- A protocol command is well formed: its mode is `a` or `r` and its id is a `GPid`. -/
def wellFormed (c : Char × GPid) : Prop := (c.1 = 'a' ∨ c.1 = 'r') ∧ isGPid c.2

instance (c : Char × GPid) : Decidable (wellFormed c) := by
  unfold wellFormed; exact inferInstance

/-- The read that delivers the line of a command. -/
def commandRead (c : Char × GPid) : ReadLine := ⟨.normal, protocolLine c.1 c.2⟩

/-- The specification's reading of one command on a list of ids: add appends, remove
erases one occurrence if there is one. -/
def applyCommand (live : List GPid) (c : Char × GPid) : List GPid :=
  if c.1 = 'a' then live ++ [c.2] else live.erase c.2

/-- The list obtained by folding the commands over an initially empty list. -/
def liveSetSpec (cmds : List (Char × GPid)) : List GPid := cmds.foldl applyCommand []

/-- The input begins with a number as `%u` takes it: an optional sign, then a decimal
digit. -/
def startsNumber : List Char → Bool
  | [] => false
  | c :: cs =>
    if c = '-' ∨ c = '+' then
      match cs with
      | [] => false
      | d :: _ => isdigit d
    else isdigit c

/-- A line that is not a command for the watchdog: it is empty, or its first character is
neither `a` nor `r`, or what follows the first character and any white space does not
begin with a number. -/
def malformed (str : List Char) : Bool :=
  match str with
  | [] => true
  | mode :: rest => (mode != 'a' && mode != 'r') || !startsNumber (skipSpace rest)

/-- A line exactly of the wire format `<mode> <id>\n`: mode `a` or `r`, one blank, one or
more decimal digits, a newline, and nothing else. -/
def exactForm (str : List Char) : Bool :=
  match str with
  | mode :: ' ' :: rest =>
    (mode == 'a' || mode == 'r') && rest.getLast? == some '\n' &&
      !rest.dropLast.isEmpty && rest.dropLast.all isdigit
  | _ => false

/-! ## Lemmas: array loops -/

theorem g_array_index_of_lt (array : List GPid) (i : Nat) (h : i < array.length) :
    g_array_index array i = .ok (array.get ⟨i, h⟩) := by
  simp [g_array_index, List.getElem?_eq_getElem h]

theorem killLoop_spec (array : List GPid) :
    ∀ (fuel i : Nat) (sent : List (GPid × Nat)), array.length - i < fuel →
      killLoop array fuel i sent
        = .ok (sent ++ (array.drop i).map (fun pid => (pid, SIGTERM))) := by
  intro fuel
  induction fuel with
  | zero => intro i sent h; omega
  | succ fuel ih =>
    intro i sent h
    unfold killLoop
    by_cases hi : i < array.length
    · rw [if_pos hi, g_array_index_of_lt array i hi]
      simp only
      rw [ih (i + 1) _ (by omega), List.drop_eq_getElem_cons hi]
      simp only [List.map_cons, List.append_assoc, List.singleton_append, List.get_eq_getElem]
    · rw [if_neg hi, List.drop_of_length_le (by omega)]
      simp

theorem kill_targets_eq (array : List GPid) :
    kill_targets array = .exited (array.map (fun pid => (pid, SIGTERM))) EXIT_SUCCESS := by
  unfold kill_targets
  rw [killLoop_spec array (array.length + 1) 0 [] (by omega)]
  simp

theorem removeLoop_absent (pid : GPid) (array : List GPid) (habs : pid ∉ array) :
    ∀ (fuel i : Nat), array.length - i < fuel →
      removeLoop pid array fuel i = .ok array := by
  intro fuel
  induction fuel with
  | zero => intro i h; omega
  | succ fuel ih =>
    intro i h
    unfold removeLoop
    by_cases hi : i < array.length
    · rw [if_pos hi, g_array_index_of_lt array i hi]
      simp only
      have hne : array.get ⟨i, hi⟩ ≠ pid := by
        intro heq
        exact habs (heq ▸ List.get_mem array i hi)
      rw [if_neg hne]
      exact ih (i + 1) (by omega)
    · rw [if_neg hi]

theorem removeLoop_present (pid : GPid) (pre post : List GPid) (hpre : pid ∉ pre) :
    ∀ (fuel i : Nat), i ≤ pre.length → (pre ++ pid :: post).length - i < fuel →
      removeLoop pid (pre ++ pid :: post) fuel i
        = g_array_remove_index_fast (pre ++ pid :: post) pre.length := by
  intro fuel
  induction fuel with
  | zero => intro i _ h; omega
  | succ fuel ih =>
    intro i hle h
    have hlen : (pre ++ pid :: post).length = pre.length + post.length + 1 := by
      simp; omega
    have hi : i < (pre ++ pid :: post).length := by omega
    unfold removeLoop
    rw [if_pos hi, g_array_index_of_lt _ i hi]
    simp only
    by_cases hip : i = pre.length
    · subst hip
      have : (pre ++ pid :: post).get ⟨pre.length, hi⟩ = pid := by
        rw [List.get_eq_getElem, List.getElem_append_right (le_refl _)]
        simp
      rw [if_pos this]
    · have hlt : i < pre.length := by omega
      have hget : (pre ++ pid :: post).get ⟨i, hi⟩ = pre.get ⟨i, hlt⟩ := by
        simp [List.getElem_append_left hlt]
      have hne : (pre ++ pid :: post).get ⟨i, hi⟩ ≠ pid := by
        rw [hget]
        intro heq
        exact hpre (heq ▸ List.get_mem pre i hlt)
      rw [if_neg hne]
      exact ih (i + 1) (by omega) (by omega)

theorem remove_index_fast_last (pre : List GPid) (pid : GPid) :
    g_array_remove_index_fast (pre ++ [pid]) pre.length = .ok pre := by
  unfold g_array_remove_index_fast
  simp

theorem remove_index_fast_inner (pre mid : List GPid) (pid last : GPid) :
    g_array_remove_index_fast (pre ++ pid :: (mid ++ [last])) pre.length
      = .ok (pre ++ last :: mid) := by
  unfold g_array_remove_index_fast
  have hlen : (pre ++ pid :: (mid ++ [last])).length = pre.length + mid.length + 2 := by
    simp; omega
  have h1 : pre.length < (pre ++ pid :: (mid ++ [last])).length := by omega
  have h2 : pre.length ≠ (pre ++ pid :: (mid ++ [last])).length - 1 := by omega
  rw [if_pos h1, if_pos h2]
  have h3 : g_array_index (pre ++ pid :: (mid ++ [last]))
      ((pre ++ pid :: (mid ++ [last])).length - 1) = .ok last := by
    have e : pre ++ pid :: (mid ++ [last]) = (pre ++ pid :: mid) ++ [last] := by simp
    have hidx : (pre ++ pid :: (mid ++ [last])).length - 1 = (pre ++ pid :: mid).length := by
      simp
    rw [hidx, e]
    unfold g_array_index
    rw [List.getElem?_concat_length]
  rw [h3]
  simp only
  congr 1
  rw [List.set_append_right _ _ (le_refl _)]
  simp only [Nat.sub_self, List.set_cons_zero]
  have e : pre ++ last :: (mid ++ [last]) = (pre ++ last :: mid) ++ [last] := by simp
  rw [e, List.dropLast_concat]

/-! ## Lemmas: formatting and scanning decimal numbers -/

theorem digitChar_spec :
    ∀ k, k < 10 → isdigit (Nat.digitChar k) = true ∧ (Nat.digitChar k).toNat - 48 = k := by
  decide

theorem toDigitsCore_spec :
    ∀ (fuel n : Nat) (ds : List Char), n < fuel →
      ∃ L : List Char, Nat.toDigitsCore 10 fuel n ds = L ++ ds ∧
        (∀ c ∈ L, isdigit c = true) ∧ L ≠ [] ∧ digitsValue 0 L = n := by
  intro fuel
  induction fuel with
  | zero => intro n ds h; omega
  | succ fuel ih =>
    intro n ds h
    have hd := digitChar_spec (n % 10) (Nat.mod_lt _ (by decide))
    unfold Nat.toDigitsCore
    by_cases hq : n / 10 = 0
    · refine ⟨[Nat.digitChar (n % 10)], ?_, ?_, ?_, ?_⟩
      · simp [hq]
      · intro c hc
        simp at hc
        rw [hc]; exact hd.1
      · simp
      · simp only [digitsValue, List.foldl_cons, List.foldl_nil]
        rw [hd.2]
        omega
    · obtain ⟨L, hL, hdig, _, hval⟩ :=
        ih (n / 10) (Nat.digitChar (n % 10) :: ds) (by omega)
      refine ⟨L ++ [Nat.digitChar (n % 10)], ?_, ?_, ?_, ?_⟩
      · simp only [hq, if_false]
        rw [hL]; simp
      · intro c hc
        rcases List.mem_append.mp hc with h1 | h1
        · exact hdig c h1
        · simp at h1
          rw [h1]; exact hd.1
      · simp
      · unfold digitsValue at hval ⊢
        rw [List.foldl_append, hval]
        simp only [List.foldl_cons, List.foldl_nil]
        rw [hd.2]
        omega

theorem fmtUnsigned_spec (u : Nat) :
    (∀ c ∈ fmtUnsigned u, isdigit c = true) ∧ fmtUnsigned u ≠ [] ∧
      digitsValue 0 (fmtUnsigned u) = u := by
  obtain ⟨L, hL, h1, h2, h3⟩ := toDigitsCore_spec (u + 1) u [] (by omega)
  have : fmtUnsigned u = L := by
    unfold fmtUnsigned Nat.toDigits
    rw [hL]; simp
  rw [this]
  exact ⟨h1, h2, h3⟩

theorem scanDigits_append (ds rest : List Char) (hds : ∀ c ∈ ds, isdigit c = true)
    (hrest : ∀ c ∈ rest.head?, isdigit c = false) :
    ∀ acc, scanDigits acc (ds ++ rest) = (digitsValue acc ds, rest) := by
  induction ds with
  | nil =>
    intro acc
    cases rest with
    | nil => rfl
    | cons c cs =>
      have : isdigit c = false := hrest c (by simp)
      simp [scanDigits, this, digitsValue]
  | cons d ds ih =>
    intro acc
    have hd : isdigit d = true := hds d (by simp)
    have := ih (fun c hc => hds c (List.mem_cons_of_mem _ hc)) (acc * 10 + (d.toNat - 48))
    show scanDigits acc (d :: (ds ++ rest)) = _
    rw [scanDigits, if_pos hd, this]
    rfl

theorem isspace_of_isdigit (c : Char) (h : isdigit c = true) : isspace c = false := by
  by_contra hs
  have hs' : isspace c = true := by simpa using hs
  simp only [isspace, Bool.or_eq_true, beq_iff_eq] at hs'
  rcases hs' with ((((rfl | rfl) | rfl) | rfl) | rfl) | rfl <;> revert h <;> decide

theorem scanUnsigned_digit (c : Char) (cs : List Char) (h : isdigit c = true) :
    scanUnsigned (c :: cs) = scanNumber false (c :: cs) := by
  have hsk : skipSpace (c :: cs) = c :: cs := by
    simp [skipSpace, isspace_of_isdigit c h]
  unfold scanUnsigned
  rw [hsk]
  split
  · rename_i heq; cases heq
  · rename_i heq
    injection heq with h1 _
    subst h1
    exact absurd h (by decide)
  · rename_i heq
    injection heq with h1 _
    subst h1
    exact absurd h (by decide)
  · rename_i heq
    injection heq with h1 h2
    subst h1; subst h2
    rfl

theorem scanUnsigned_fmtUnsigned (u : Nat) (rest : List Char)
    (hrest : ∀ c ∈ rest.head?, isdigit c = false) :
    scanUnsigned (fmtUnsigned u ++ rest) = .ok (strtoul false u) rest := by
  obtain ⟨hdig, hne, hval⟩ := fmtUnsigned_spec u
  have hscan := scanDigits_append (fmtUnsigned u) rest hdig hrest 0
  cases hL : fmtUnsigned u with
  | nil => exact absurd hL hne
  | cons d ds =>
    rw [hL] at hdig hval hscan
    have hd : isdigit d = true := hdig d (by simp)
    rw [List.cons_append, scanUnsigned_digit d _ hd]
    rw [List.cons_append] at hscan
    simp only [scanNumber, hd, if_true, hscan, hval]

theorem toGuint_lt (pid : GPid) : toGuint pid < 4294967296 := by
  unfold toGuint; omega

theorem ofGuint_toGuint (pid : Int) (h : isGPid pid) : ofGuint (toGuint pid) = pid := by
  unfold isGPid at h
  unfold ofGuint toGuint
  have h0 : 0 ≤ pid % 4294967296 := Int.emod_nonneg _ (by decide)
  have hk : (((pid % 4294967296).toNat : Nat) : Int) = pid % 4294967296 :=
    Int.toNat_of_nonneg h0
  generalize (pid % 4294967296).toNat = k at hk ⊢
  show (if k % 4294967296 < 2147483648 then ((k % 4294967296 : Nat) : Int)
    else ((k % 4294967296 : Nat) : Int) - 4294967296) = pid
  split <;> omega

theorem sscanf_protocolLine (mode : Char) (id : GPid) (h : isGPid id) :
    sscanf_mode_pid (protocolLine mode id) = .two mode id := by
  have hrest : ∀ c ∈ ['\n'].head?, isdigit c = false := by
    intro c hc
    simp at hc
    subst hc
    decide
  have hscan := scanUnsigned_fmtUnsigned (toGuint id) ['\n'] hrest
  obtain ⟨hdig, hne, _⟩ := fmtUnsigned_spec (toGuint id)
  have hsk : skipSpace (' ' :: (fmtUnsigned (toGuint id) ++ ['\n']))
      = fmtUnsigned (toGuint id) ++ ['\n'] := by
    have h1 : isspace ' ' = true := by decide
    rw [skipSpace, if_pos h1]
    cases hL : fmtUnsigned (toGuint id) with
    | nil => exact absurd hL hne
    | cons d ds =>
      rw [hL] at hdig
      have hd : isdigit d = true := hdig d (by simp)
      simp [skipSpace, isspace_of_isdigit d hd]
  have hst : strtoul false (toGuint id) = toGuint id := by
    have := toGuint_lt id
    unfold strtoul ULONG_MAX
    rw [if_neg (by omega)]
    simp
  unfold protocolLine sscanf_mode_pid
  simp only [List.cons_append]
  rw [hsk, hscan, hst]
  show ScanLine.two mode (ofGuint (toGuint id)) = _
  rw [ofGuint_toGuint id h]

/-! ## Lemmas: the watchdog step -/

theorem watchdogStep_not_normal (array : List GPid) (r : ReadLine)
    (h : r.status ≠ GIOStatus.normal) : watchdogStep array r = kill_targets array := by
  unfold watchdogStep
  rw [if_pos h]

theorem watchdogStep_scan_failed (array : List GPid) (str : List Char)
    (h : (sscanf_mode_pid str).ret ≠ 2) :
    watchdogStep array ⟨.normal, str⟩ = kill_targets array := by
  unfold watchdogStep
  simp only [ne_eq, not_true_eq_false, if_false]
  rw [if_pos (fun e => h e.symm)]

theorem watchdogStep_two (array : List GPid) (str : List Char) (mode : Char) (pid : GPid)
    (h : sscanf_mode_pid str = .two mode pid) :
    watchdogStep array ⟨.normal, str⟩ =
      if mode = 'a' then .listening (g_array_append_val array pid)
      else if mode = 'r' then
        match removeLoop pid array (array.length + 1) 0 with
        | .ok array' => .listening array'
        | .error e => .stuck e
      else kill_targets array := by
  unfold watchdogStep
  simp only [ne_eq, not_true_eq_false, if_false, h, ScanLine.ret]

theorem watchdogStep_bad_mode (array : List GPid) (mode : Char) (rest : List Char)
    (ha : mode ≠ 'a') (hr : mode ≠ 'r') :
    watchdogStep array ⟨.normal, mode :: rest⟩ = kill_targets array := by
  cases hs : sscanf_mode_pid (mode :: rest) with
  | eof => exact watchdogStep_scan_failed array _ (by rw [hs]; simp [ScanLine.ret])
  | one m => exact watchdogStep_scan_failed array _ (by rw [hs]; simp [ScanLine.ret])
  | two m pid =>
    have hm : m = mode := by
      simp only [sscanf_mode_pid] at hs
      split at hs
      · injection hs with h1 _
        exact h1.symm
      · cases hs
    rw [watchdogStep_two array _ m pid hs, hm, if_neg ha, if_neg hr]

theorem remove_first (pid : GPid) (pre post : List GPid) (hpre : pid ∉ pre) :
    ∃ array', removeLoop pid (pre ++ pid :: post) ((pre ++ pid :: post).length + 1) 0
        = .ok array' ∧
      g_array_remove_index_fast (pre ++ pid :: post) pre.length = .ok array' ∧
      array'.Perm (pre ++ post) ∧
      array' = ((pre ++ pid :: post).set pre.length
        ((pre ++ pid :: post).getLast (by simp))).dropLast := by
  rw [removeLoop_present pid pre post hpre _ 0 (Nat.zero_le _) (by omega)]
  rcases List.eq_nil_or_concat post with hp | ⟨mid, last, hp⟩
  · subst hp
    refine ⟨pre, remove_index_fast_last pre pid, remove_index_fast_last pre pid,
      by simp, ?_⟩
    rw [List.set_append_right _ _ (le_refl _)]
    simp
  · rw [List.concat_eq_append] at hp
    subst hp
    refine ⟨pre ++ last :: mid, remove_index_fast_inner pre mid pid last,
      remove_index_fast_inner pre mid pid last, ?_, ?_⟩
    · apply List.Perm.append_left
      exact (List.perm_append_singleton last mid).symm
    · rw [List.set_append_right _ _ (le_refl _)]
      have e1 : (pre ++ pid :: (mid ++ [last])).getLast (by simp) = last := by
        have e : pre ++ pid :: (mid ++ [last]) = (pre ++ pid :: mid) ++ [last] := by simp
        simp only [e, List.getLast_append_singleton]
      rw [e1]
      simp only [Nat.sub_self, List.set_cons_zero]
      have e : pre ++ last :: (mid ++ [last]) = (pre ++ last :: mid) ++ [last] := by simp
      rw [e, List.dropLast_concat]

theorem removeLoop_total (pid : GPid) (array : List GPid) :
    ∃ array', removeLoop pid array (array.length + 1) 0 = .ok array' ∧
      array'.Perm (array.erase pid) := by
  by_cases hmem : pid ∈ array
  · obtain ⟨pre, post, harr, hpre⟩ := List.eq_append_cons_of_mem hmem
    obtain ⟨array', h1, _, h3, _⟩ := remove_first pid pre post hpre
    refine ⟨array', by rw [harr]; exact h1, ?_⟩
    rw [harr, List.erase_append_right _ hpre, List.erase_cons_head]
    exact h3
  · refine ⟨array, removeLoop_absent pid array hmem _ 0 (by omega), ?_⟩
    rw [List.erase_of_not_mem hmem]

theorem watchdogRun_append (xs ys : List ReadLine) :
    ∀ w, watchdogRun w (xs ++ ys) = watchdogRun (watchdogRun w xs) ys := by
  induction xs with
  | nil =>
    intro w
    cases w <;> simp [watchdogRun]
  | cons x xs ih =>
    intro w
    cases w with
    | listening array => simp only [List.cons_append, watchdogRun]; exact ih _
    | exited sig st => cases ys <;> simp [watchdogRun]
    | stuck e => cases ys <;> simp [watchdogRun]

/-! ## The watchdog: which lines are commands -/

theorem skipSpace_idem : ∀ s, skipSpace (skipSpace s) = skipSpace s := by
  intro s
  induction s with
  | nil => rfl
  | cons c cs ih =>
    by_cases h : isspace c = true
    · simp only [skipSpace, h, if_true]; exact ih
    · simp [skipSpace, h]

theorem scanNumber_ok_iff (neg : Bool) (s : List Char) :
    (∃ v r, scanNumber neg s = .ok v r) ↔
      (match s with
        | [] => false
        | d :: _ => isdigit d) = true := by
  cases s with
  | nil => simp [scanNumber]
  | cons d ds =>
    by_cases h : isdigit d = true
    · simp [scanNumber, h]
    · simp [scanNumber, h]

theorem scanUnsigned_ok_iff (s : List Char) :
    (∃ v r, scanUnsigned s = .ok v r) ↔ startsNumber (skipSpace s) = true := by
  unfold scanUnsigned
  generalize skipSpace s = t
  cases t with
  | nil => simp [startsNumber]
  | cons c cs =>
    by_cases hm : c = '-'
    · subst hm
      simp only [startsNumber, true_or, if_true]
      exact scanNumber_ok_iff true cs
    · by_cases hp : c = '+'
      · subst hp
        simp only [startsNumber, or_true, if_true]
        exact scanNumber_ok_iff false cs
      · have hstart : startsNumber (c :: cs) = isdigit c := by
          simp [startsNumber, hm, hp]
        rw [hstart]
        have hmatch : (match c :: cs with
            | [] => Conv.inputFailure
            | '-' :: cs => scanNumber true cs
            | '+' :: cs => scanNumber false cs
            | c :: cs => scanNumber false (c :: cs)) = scanNumber false (c :: cs) := by
          split
          · rename_i heq; cases heq
          · rename_i heq; injection heq with h1 _; exact absurd h1 hm
          · rename_i heq; injection heq with h1 _; exact absurd h1 hp
          · rename_i heq; injection heq with h1 h2; subst h1; subst h2; rfl
        rw [hmatch]
        exact scanNumber_ok_iff false (c :: cs)

theorem sscanf_two_of_startsNumber (mode : Char) (rest : List Char)
    (h : startsNumber (skipSpace rest) = true) :
    ∃ pid, sscanf_mode_pid (mode :: rest) = .two mode pid := by
  have h' : startsNumber (skipSpace (skipSpace rest)) = true := by
    rw [skipSpace_idem]; exact h
  obtain ⟨v, r, hv⟩ := (scanUnsigned_ok_iff (skipSpace rest)).mpr h'
  exact ⟨ofGuint v, by simp only [sscanf_mode_pid, hv]⟩

theorem sscanf_one_of_not_startsNumber (mode : Char) (rest : List Char)
    (h : startsNumber (skipSpace rest) = false) :
    sscanf_mode_pid (mode :: rest) = .one mode := by
  have h' : ¬ ∃ v r, scanUnsigned (skipSpace rest) = .ok v r := by
    rw [scanUnsigned_ok_iff, skipSpace_idem, h]
    simp
  simp only [sscanf_mode_pid]
  split
  · rename_i v r hv
    exact absurd ⟨v, r, hv⟩ h'
  · rfl

theorem watchdogStep_malformed (array : List GPid) (str : List Char)
    (h : malformed str = true) :
    watchdogStep array ⟨.normal, str⟩ = kill_targets array := by
  cases str with
  | nil => exact watchdogStep_scan_failed array [] (by decide)
  | cons mode rest =>
    by_cases hmode : mode ≠ 'a' ∧ mode ≠ 'r'
    · exact watchdogStep_bad_mode array mode rest hmode.1 hmode.2
    · have hnum : startsNumber (skipSpace rest) = false := by
        simp only [malformed, Bool.or_eq_true, Bool.and_eq_true, bne_iff_ne, ne_eq,
          Bool.not_eq_true'] at h
        rcases h with h | h
        · exact absurd h hmode
        · exact h
      apply watchdogStep_scan_failed
      rw [sscanf_one_of_not_startsNumber mode rest hnum]
      simp [ScanLine.ret]

theorem watchdogStep_wellformed (array : List GPid) (str : List Char)
    (h : malformed str = false) :
    ∃ mode rest pid array', str = mode :: rest ∧
      sscanf_mode_pid str = .two mode pid ∧
      watchdogStep array ⟨.normal, str⟩ = .listening array' ∧
      ((mode = 'a' ∧ array' = array ++ [pid]) ∨
        (mode = 'r' ∧ array'.Perm (array.erase pid))) := by
  cases str with
  | nil => simp [malformed] at h
  | cons mode rest =>
    simp only [malformed, Bool.or_eq_false_iff, Bool.and_eq_false_iff, bne_eq_false_iff_eq,
      Bool.not_eq_false'] at h
    obtain ⟨hmode, hnum⟩ := h
    obtain ⟨pid, hs⟩ := sscanf_two_of_startsNumber mode rest hnum
    rcases hmode with ha | hr
    · refine ⟨mode, rest, pid, array ++ [pid], rfl, hs, ?_, Or.inl ⟨ha, rfl⟩⟩
      rw [watchdogStep_two array _ mode pid hs, if_pos ha]
      rfl
    · obtain ⟨array', h1, h2⟩ := removeLoop_total pid array
      have hna : mode ≠ 'a' := by rw [hr]; decide
      refine ⟨mode, rest, pid, array', rfl, hs, ?_, Or.inr ⟨hr, h2⟩⟩
      rw [watchdogStep_two array _ mode pid hs, if_neg hna, if_pos hr, h1]

theorem malformed_of_exactForm (str : List Char) (h : exactForm str = true) :
    malformed str = false := by
  unfold exactForm at h
  split at h
  · rename_i mode rest
    simp only [Bool.and_eq_true, Bool.or_eq_true, beq_iff_eq, Bool.not_eq_true',
      List.all_eq_true] at h
    obtain ⟨⟨⟨hmode, _⟩, hne⟩, hdig⟩ := h
    cases rest with
    | nil => simp at hne
    | cons d ds =>
      cases ds with
      | nil => simp at hne
      | cons e es =>
        have hd : isdigit d = true := hdig d (by simp [List.dropLast])
        have hsp : isspace ' ' = true := by decide
        have hsk : skipSpace (' ' :: d :: e :: es) = d :: e :: es := by
          simp [skipSpace, hsp, isspace_of_isdigit d hd]
        have hm : d ≠ '-' := by intro hc; subst hc; exact absurd hd (by decide)
        have hp : d ≠ '+' := by intro hc; subst hc; exact absurd hd (by decide)
        simp only [malformed, hsk, startsNumber, hm, hp, or_self, if_false, hd,
          Bool.not_true, Bool.or_false, Bool.and_eq_false_iff, bne_eq_false_iff_eq]
        exact hmode
  · cases h

/-! ## The watchdog: claims -/

theorem watchdogStep_command (array : List GPid) (c : Char × GPid) (h : wellFormed c) :
    ∃ array', watchdogStep array (commandRead c) = .listening array' ∧
      array'.Perm (applyCommand array c) := by
  obtain ⟨hmode, hid⟩ := h
  have hs := sscanf_protocolLine c.1 c.2 hid
  unfold commandRead applyCommand
  rw [watchdogStep_two array _ c.1 c.2 hs]
  rcases hmode with ha | hr
  · rw [if_pos ha, if_pos ha]
    exact ⟨_, rfl, List.Perm.refl _⟩
  · have hna : c.1 ≠ 'a' := by rw [hr]; decide
    rw [if_neg hna, if_pos hr, if_neg hna]
    obtain ⟨array', h1, h2⟩ := removeLoop_total c.2 array
    rw [h1]
    exact ⟨array', rfl, h2⟩

theorem applyCommand_perm (l₁ l₂ : List GPid) (c : Char × GPid) (h : l₁.Perm l₂) :
    (applyCommand l₁ c).Perm (applyCommand l₂ c) := by
  unfold applyCommand
  split
  · exact List.Perm.append_right _ h
  · exact List.Perm.erase _ h

theorem watchdogRun_commands (cmds : List (Char × GPid)) (hwf : ∀ c ∈ cmds, wellFormed c) :
    ∀ array spec : List GPid, array.Perm spec →
      ∃ array', watchdogRun (.listening array) (cmds.map commandRead) = .listening array' ∧
        array'.Perm (cmds.foldl applyCommand spec) := by
  induction cmds with
  | nil =>
    intro array spec h
    exact ⟨array, rfl, h⟩
  | cons c cs ih =>
    intro array spec h
    obtain ⟨a1, hstep, hperm⟩ := watchdogStep_command array c (hwf c (by simp))
    obtain ⟨a2, hrun, hperm2⟩ := ih (fun d hd => hwf d (List.mem_cons_of_mem _ hd)) a1
      (applyCommand spec c) (hperm.trans (applyCommand_perm array spec c h))
    refine ⟨a2, ?_, hperm2⟩
    simp only [List.map_cons, watchdogRun, hstep]
    exact hrun

/-- C1: for every sequence of well-formed protocol lines followed by a read that does not
return normal status (channel closure), the watchdog exits with `EXIT_SUCCESS` and the
ids it sent `SIGTERM` to are, as a multiset, the fold of the lines over the empty list
with add = append and remove = erase one occurrence if present; for the lines
`a 100`, `a 200`, `a 300`, `r 200`, EOF it signals exactly 100 and 300. -/
theorem watchdog_signals_folded_lines (cmds : List (Char × GPid)) (r : ReadLine)
    (hwf : ∀ c ∈ cmds, wellFormed c) (hclosed : r.status ≠ GIOStatus.normal) :
    (∃ signalled, watchdogRun watchdogInit (cmds.map commandRead ++ [r])
        = .exited signalled EXIT_SUCCESS ∧
      (signalled.map Prod.fst).Perm (liveSetSpec cmds) ∧
      ∀ s ∈ signalled, s.2 = SIGTERM) ∧
    watchdogRun watchdogInit
        [.line "a 100\n", .line "a 200\n", .line "a 300\n", .line "r 200\n", .closed]
      = .exited [(100, SIGTERM), (300, SIGTERM)] EXIT_SUCCESS := by
  refine ⟨?_, by decide⟩
  obtain ⟨array, hrun, hperm⟩ := watchdogRun_commands cmds hwf [] [] (List.Perm.refl _)
  refine ⟨array.map (fun pid => (pid, SIGTERM)), ?_, ?_, ?_⟩
  · rw [watchdogRun_append]
    unfold watchdogInit
    rw [hrun]
    simp only [watchdogRun]
    rw [watchdogStep_not_normal array r hclosed, kill_targets_eq]
    rfl
  · simp only [List.map_map]
    have : (Prod.fst ∘ fun pid : GPid => (pid, SIGTERM)) = id := by
      funext x; rfl
    rw [this, List.map_id]
    exact hperm
  · intro s hs
    obtain ⟨pid, _, rfl⟩ := List.mem_map.mp hs
    rfl

theorem watchdog_signals_folded_lines_witness :
    (∀ c ∈ [('a', (100 : GPid)), ('a', 200), ('a', 300), ('r', 200)], wellFormed c) ∧
    ReadLine.closed.status ≠ GIOStatus.normal ∧
    ((∃ signalled, watchdogRun watchdogInit
        ([('a', (100 : GPid)), ('a', 200), ('a', 300), ('r', 200)].map commandRead
          ++ [ReadLine.closed]) = .exited signalled EXIT_SUCCESS ∧
      (signalled.map Prod.fst).Perm
        (liveSetSpec [('a', (100 : GPid)), ('a', 200), ('a', 300), ('r', 200)]) ∧
      ∀ s ∈ signalled, s.2 = SIGTERM) ∧
    watchdogRun watchdogInit
        [.line "a 100\n", .line "a 200\n", .line "a 300\n", .line "r 200\n", .closed]
      = .exited [(100, SIGTERM), (300, SIGTERM)] EXIT_SUCCESS) :=
  ⟨by decide, by decide,
    watchdog_signals_folded_lines [('a', 100), ('a', 200), ('a', 300), ('r', 200)]
      ReadLine.closed (by decide) (by decide)⟩

/-- C2: whatever the live set, when the read does not return `G_IO_STATUS_NORMAL` the
watchdog sends `SIGTERM` to the entries of the live set, one signal per entry in array
order (so none is skipped, none is signalled twice for one entry, and nothing outside the
live set is signalled), exits with `EXIT_SUCCESS`, and reads nothing further. -/
theorem watchdog_read_failure_kills_all (array : List GPid) (r : ReadLine)
    (rs : List ReadLine) (h : r.status ≠ GIOStatus.normal) :
    watchdogStep array r = .exited (array.map (fun pid => (pid, SIGTERM))) EXIT_SUCCESS ∧
    watchdogRun (.listening array) (r :: rs)
      = .exited (array.map (fun pid => (pid, SIGTERM))) EXIT_SUCCESS ∧
    (∀ x, ((array.map (fun pid => (pid, SIGTERM))).map Prod.fst).count x
      = array.count x) := by
  have hstep := (watchdogStep_not_normal array r h).trans (kill_targets_eq array)
  refine ⟨hstep, ?_, ?_⟩
  · simp only [watchdogRun, hstep]
  · intro x
    simp only [List.map_map]
    have : (Prod.fst ∘ fun pid : GPid => (pid, SIGTERM)) = id := by
      funext y; rfl
    rw [this, List.map_id]

theorem watchdog_read_failure_kills_all_witness :
    ReadLine.closed.status ≠ GIOStatus.normal ∧
    watchdogStep [100, 300, 100] ReadLine.closed
      = .exited [(100, SIGTERM), (300, SIGTERM), (100, SIGTERM)] EXIT_SUCCESS :=
  ⟨by decide,
    (watchdog_read_failure_kills_all [100, 300, 100] ReadLine.closed [] (by decide)).1⟩

/-- C3 (as stated, refuted): the truncated line `a 12` (the line `a 123` cut short) is
read with normal status and taken as a command; the live set is changed and the watchdog
keeps listening, which is not the outcome of channel closure. -/
theorem truncated_line_taken_as_command :
    exactForm "a 12".toList = false ∧
    watchdogStep [100] (.line "a 12") = .listening [100, 12] ∧
    watchdogStep [100] .closed = .exited [(100, SIGTERM)] EXIT_SUCCESS ∧
    watchdogRun (.listening [100]) [.line "a 12", .closed]
      = .exited [(100, SIGTERM), (12, SIGTERM)] EXIT_SUCCESS := by
  decide

/-- C3 (amended): whatever the live set, a line that is empty, or whose first character
is neither `a` nor `r` (such as `x 123`), or in which no number follows the first
character and optional white space (such as `a notanumber`, or a line cut off before the
first digit of its id) has the outcome of channel closure: every entry of the live set as
it was before the line is sent `SIGTERM`, the line adds and removes nothing, and the
watchdog exits with `EXIT_SUCCESS`. -/
theorem watchdog_malformed_line_is_closure (array : List GPid) (str : List Char)
    (rs : List ReadLine) (h : malformed str = true) :
    watchdogStep array ⟨.normal, str⟩ = watchdogStep array ReadLine.closed ∧
    watchdogStep array ⟨.normal, str⟩
      = .exited (array.map (fun pid => (pid, SIGTERM))) EXIT_SUCCESS ∧
    watchdogRun (.listening array) (⟨.normal, str⟩ :: rs)
      = .exited (array.map (fun pid => (pid, SIGTERM))) EXIT_SUCCESS := by
  have hstep := (watchdogStep_malformed array str h).trans (kill_targets_eq array)
  have hclosed := (watchdogStep_not_normal array ReadLine.closed (by decide)).trans
    (kill_targets_eq array)
  refine ⟨hstep.trans hclosed.symm, hstep, ?_⟩
  simp only [watchdogRun, hstep]

theorem watchdog_malformed_line_is_closure_witness :
    (malformed "x 123\n".toList = true ∧
      watchdogStep [100, 300] ⟨.normal, "x 123\n".toList⟩
        = .exited [(100, SIGTERM), (300, SIGTERM)] EXIT_SUCCESS) ∧
    (malformed "a notanumber\n".toList = true ∧
      watchdogStep [100, 300] ⟨.normal, "a notanumber\n".toList⟩
        = .exited [(100, SIGTERM), (300, SIGTERM)] EXIT_SUCCESS) ∧
    (malformed "a ".toList = true ∧
      watchdogStep [100, 300] ⟨.normal, "a ".toList⟩
        = .exited [(100, SIGTERM), (300, SIGTERM)] EXIT_SUCCESS) ∧
    (malformed "".toList = true ∧
      watchdogStep [100, 300] ⟨.normal, "".toList⟩
        = .exited [(100, SIGTERM), (300, SIGTERM)] EXIT_SUCCESS) :=
  ⟨⟨by decide,
      (watchdog_malformed_line_is_closure [100, 300] "x 123\n".toList [] (by decide)).2.1⟩,
    ⟨by decide,
      (watchdog_malformed_line_is_closure [100, 300] "a notanumber\n".toList []
        (by decide)).2.1⟩,
    ⟨by decide,
      (watchdog_malformed_line_is_closure [100, 300] "a ".toList [] (by decide)).2.1⟩,
    ⟨by decide,
      (watchdog_malformed_line_is_closure [100, 300] "".toList [] (by decide)).2.1⟩⟩

/-- C4 (as stated, refuted): lines that are not exactly `<mode> <id>` plus newline, with
characters after the id, an extra field, a signed id, extra white space, a tab for the
blank, or no blank at all, are taken as commands: the live set is updated and the
watchdog keeps listening. -/
theorem lenient_lines_taken_as_commands :
    (exactForm "a 123xyz\n".toList = false ∧
      watchdogStep [100] (.line "a 123xyz\n") = .listening [100, 123]) ∧
    (exactForm "a 7 8\n".toList = false ∧
      watchdogStep [100] (.line "a 7 8\n") = .listening [100, 7]) ∧
    (exactForm "a -1\n".toList = false ∧
      watchdogStep [100] (.line "a -1\n") = .listening [100, -1]) ∧
    (exactForm "a    7\n".toList = false ∧
      watchdogStep [100] (.line "a    7\n") = .listening [100, 7]) ∧
    (exactForm "r\t100\n".toList = false ∧
      watchdogStep [100] (.line "r\t100\n") = .listening []) ∧
    (exactForm "a7\n".toList = false ∧
      watchdogStep [100] (.line "a7\n") = .listening [100, 7]) := by
  decide

/-- C4 (amended): a line read with normal status is treated as channel closure (no update
of the live set, every entry signalled, exit) exactly when it is empty, or its first
character is neither `a` nor `r`, or no optionally signed decimal digit follows the first
character and any white space. Every other line is taken as a command and the watchdog
keeps listening; the lines exactly of the wire format are among them. -/
theorem watchdog_line_acceptance (array : List GPid) (str : List Char) :
    (malformed str = true ↔
      watchdogStep array ⟨.normal, str⟩
        = .exited (array.map (fun pid => (pid, SIGTERM))) EXIT_SUCCESS) ∧
    (malformed str = false ↔
      ∃ array', watchdogStep array ⟨.normal, str⟩ = .listening array') ∧
    (malformed str = false ↔
      ∃ mode pid array', sscanf_mode_pid str = .two mode pid ∧
        watchdogStep array ⟨.normal, str⟩ = .listening array' ∧
        ((mode = 'a' ∧ array' = array ++ [pid]) ∨
          (mode = 'r' ∧ array'.Perm (array.erase pid)))) ∧
    (exactForm str = true → malformed str = false) := by
  have hbad : malformed str = true →
      watchdogStep array ⟨.normal, str⟩
        = .exited (array.map (fun pid => (pid, SIGTERM))) EXIT_SUCCESS :=
    fun h => (watchdogStep_malformed array str h).trans (kill_targets_eq array)
  have hgood : malformed str = false →
      ∃ mode pid array', sscanf_mode_pid str = .two mode pid ∧
        watchdogStep array ⟨.normal, str⟩ = .listening array' ∧
        ((mode = 'a' ∧ array' = array ++ [pid]) ∨
          (mode = 'r' ∧ array'.Perm (array.erase pid))) := by
    intro h
    obtain ⟨mode, rest, pid, array', _, h2, h3, h4⟩ := watchdogStep_wellformed array str h
    exact ⟨mode, pid, array', h2, h3, h4⟩
  refine ⟨⟨hbad, ?_⟩, ⟨?_, ?_⟩, ⟨hgood, ?_⟩, malformed_of_exactForm str⟩
  · intro h
    cases hm : malformed str with
    | true => rfl
    | false =>
      obtain ⟨_, _, array', _, h3, _⟩ := hgood hm
      rw [h3] at h
      cases h
  · intro h
    obtain ⟨_, _, array', _, h3, _⟩ := hgood h
    exact ⟨array', h3⟩
  · rintro ⟨array', h⟩
    cases hm : malformed str with
    | false => rfl
    | true =>
      rw [hbad hm] at h
      cases h
  · rintro ⟨_, _, array', _, h, _⟩
    cases hm : malformed str with
    | false => rfl
    | true =>
      rw [hbad hm] at h
      cases h

theorem watchdog_line_acceptance_witness :
    exactForm "a 123\n".toList = true ∧ malformed "a 123\n".toList = false ∧
    malformed "a 123xyz\n".toList = false ∧
    ∃ array', watchdogStep [100] ⟨.normal, "a 123xyz\n".toList⟩ = .listening array' :=
  ⟨by decide, (watchdog_line_acceptance [100] "a 123\n".toList).2.2.2 (by decide),
    by decide, (watchdog_line_acceptance [100] "a 123xyz\n".toList).2.1.mp (by decide)⟩

/-- C5: when the live set contains `id`, the line `r id` removes exactly one entry, the
one at the first index `i` holding `id`, by unordered removal: slot `i` receives the last
entry and the length drops by one. The new live set is a permutation of the old one with
one occurrence of `id` erased, every other id keeps its number of occurrences, and the
watchdog keeps listening. -/
theorem watchdog_remove_present (array : List GPid) (id : GPid) (hid : isGPid id)
    (hmem : id ∈ array) :
    ∃ (i : Nat) (array' : List GPid),
      watchdogStep array ⟨.normal, protocolLine 'r' id⟩ = .listening array' ∧
      i < array.length ∧ array[i]? = some id ∧ (∀ j, j < i → array[j]? ≠ some id) ∧
      (∀ hne : array ≠ [], array' = (array.set i (array.getLast hne)).dropLast) ∧
      array'.length + 1 = array.length ∧
      array'.Perm (array.erase id) ∧
      array'.count id + 1 = array.count id ∧
      (∀ x, x ≠ id → array'.count x = array.count x) := by
  obtain ⟨pre, post, harr, hpre⟩ := List.eq_append_cons_of_mem hmem
  obtain ⟨array', h1, _, h3, h4⟩ := remove_first id pre post hpre
  have hperm : array'.Perm (array.erase id) := by
    rw [harr, List.erase_append_right _ hpre, List.erase_cons_head]
    exact h3
  have hpos : 0 < array.count id := List.count_pos_iff.mpr hmem
  refine ⟨pre.length, array', ?_, ?_, ?_, ?_, ?_, ?_, hperm, ?_, ?_⟩
  · rw [watchdogStep_two array _ 'r' id (sscanf_protocolLine 'r' id hid)]
    rw [if_neg (by decide), if_pos rfl]
    subst harr
    rw [h1]
  · rw [harr]; simp
  · rw [harr, List.getElem?_append_right (le_refl _)]
    simp
  · intro j hj
    rw [harr, List.getElem?_append_left hj, List.getElem?_eq_getElem hj]
    intro heq
    injection heq with heq
    exact hpre (heq ▸ List.getElem_mem hj)
  · intro hne
    subst harr
    exact h4
  · rw [hperm.length_eq, List.length_erase_of_mem hmem]
    have : 0 < array.length := List.length_pos_of_mem hmem
    omega
  · rw [hperm.count_eq, List.count_erase_self]
    omega
  · intro x hx
    rw [hperm.count_eq, List.count_erase_of_ne hx]

theorem watchdog_remove_present_witness :
    isGPid 200 ∧ (200 : GPid) ∈ [100, 200, 300, 200, 400] ∧
    ∃ (i : Nat) (array' : List GPid),
      watchdogStep [100, 200, 300, 200, 400] ⟨.normal, protocolLine 'r' 200⟩
        = .listening array' ∧
      i < [100, 200, 300, 200, (400 : GPid)].length ∧
      [100, 200, 300, 200, (400 : GPid)][i]? = some 200 ∧
      (∀ j, j < i → [100, 200, 300, 200, (400 : GPid)][j]? ≠ some 200) ∧
      (∀ hne : [100, 200, 300, 200, (400 : GPid)] ≠ [],
        array' = ([100, 200, 300, 200, (400 : GPid)].set i
          ([100, 200, 300, 200, (400 : GPid)].getLast hne)).dropLast) ∧
      array'.length + 1 = [100, 200, 300, 200, (400 : GPid)].length ∧
      array'.Perm ([100, 200, 300, 200, (400 : GPid)].erase 200) ∧
      array'.count 200 + 1 = [100, 200, 300, 200, (400 : GPid)].count 200 ∧
      (∀ x, x ≠ 200 → array'.count x = [100, 200, 300, 200, (400 : GPid)].count x) :=
  ⟨by decide, by decide,
    watchdog_remove_present [100, 200, 300, 200, 400] 200 (by decide) (by decide)⟩

/-- C6: when `id` does not occur in the live set (the empty live set included), the line
`r id` leaves the live set exactly as it was: the search loop ends normally without
touching an index outside the array (an invalid access would leave the model stuck),
nothing is signalled and the watchdog keeps listening. -/
theorem watchdog_remove_absent (array : List GPid) (id : GPid) (hid : isGPid id)
    (habs : id ∉ array) :
    removeLoop id array (array.length + 1) 0 = .ok array ∧
    watchdogStep array ⟨.normal, protocolLine 'r' id⟩ = .listening array ∧
    (∀ rs, watchdogRun (.listening array) (⟨.normal, protocolLine 'r' id⟩ :: rs)
      = watchdogRun (.listening array) rs) := by
  have hloop := removeLoop_absent id array habs (array.length + 1) 0 (by omega)
  have hstep : watchdogStep array ⟨.normal, protocolLine 'r' id⟩ = .listening array := by
    rw [watchdogStep_two array _ 'r' id (sscanf_protocolLine 'r' id hid)]
    rw [if_neg (by decide), if_pos rfl, hloop]
  refine ⟨hloop, hstep, ?_⟩
  intro rs
  simp only [watchdogRun, hstep]

theorem watchdog_remove_absent_witness :
    isGPid 7 ∧ (7 : GPid) ∉ ([] : List GPid) ∧ (7 : GPid) ∉ [100, 300] ∧
    watchdogStep [] ⟨.normal, protocolLine 'r' 7⟩ = .listening [] ∧
    watchdogStep [100, 300] ⟨.normal, protocolLine 'r' 7⟩ = .listening [100, 300] :=
  ⟨by decide, by decide, by decide,
    (watchdog_remove_absent [] 7 (by decide) (by decide)).2.1,
    (watchdog_remove_absent [100, 300] 7 (by decide) (by decide)).2.1⟩

/-! ## Lemmas: the parent side -/

theorem fmtAddPid_newline (pid : GPid) : fmtAddPid pid ++ ['\n'] = protocolLine 'a' pid := rfl

theorem send_command_some (p : Parent) (fd : Nat) (command : List Char)
    (h : p.priv.channel = some fd) :
    gb_supervisor_send_command p command
      = { p with written := p.written ++ [(fd, command ++ ['\n'])] } := by
  unfold gb_supervisor_send_command
  simp only [h]

theorem sendPidsLoop_spec (fd : Nat) :
    ∀ (fuel i : Nat) (p : Parent), p.priv.channel = some fd →
      p.priv.pids.length - i < fuel →
      sendPidsLoop fuel i p = .ok { p with
        written :=
          p.written ++ (p.priv.pids.drop i).map (fun pid => (fd, protocolLine 'a' pid)) } := by
  intro fuel
  induction fuel with
  | zero => intro i p _ h; omega
  | succ fuel ih =>
    intro i p hch h
    unfold sendPidsLoop
    by_cases hi : i < p.priv.pids.length
    · rw [if_pos hi, g_array_index_of_lt _ i hi]
      simp only
      rw [send_command_some p fd _ hch, fmtAddPid_newline]
      rw [ih (i + 1)
        { p with written := p.written ++ [(fd, protocolLine 'a' (p.priv.pids.get ⟨i, hi⟩))] }
        hch (by show p.priv.pids.length - (i + 1) < fuel; omega)]
      simp only [List.append_assoc, List.singleton_append]
      rw [List.drop_eq_getElem_cons hi]
      simp only [List.map_cons, List.get_eq_getElem]
    · rw [if_neg hi, List.drop_of_length_le (by omega)]
      simp

/-- A launch touches only the record of writes and the registered waits. -/
theorem launch_frame (env : Env) (p : Parent) (launcher : Launcher)
    (argv : List (List Char)) :
    (gb_supervisor_launch env p launcher argv).priv = p.priv ∧
    (gb_supervisor_launch env p launcher argv).pipesMade = p.pipesMade ∧
    (gb_supervisor_launch env p launcher argv).forked = p.forked ∧
    (gb_supervisor_launch env p launcher argv).closedFds = p.closedFds ∧
    ∃ extra, (gb_supervisor_launch env p launcher argv).written = p.written ++ extra := by
  unfold gb_supervisor_launch gb_supervisor_send_command
  cases env.spawnv launcher argv with
  | none => exact ⟨rfl, rfl, rfl, rfl, [], by simp⟩
  | some identifier =>
    cases p.priv.channel with
    | none => exact ⟨rfl, rfl, rfl, rfl, [], by simp⟩
    | some fd => exact ⟨rfl, rfl, rfl, rfl, _, rfl⟩

theorem launchAll_frame (env : Env) (l : List (Launcher × List (List Char))) :
    ∀ p : Parent,
      (l.foldl (fun q kv => gb_supervisor_launch env q kv.1 kv.2) p).priv = p.priv ∧
      (l.foldl (fun q kv => gb_supervisor_launch env q kv.1 kv.2) p).pipesMade
        = p.pipesMade ∧
      (l.foldl (fun q kv => gb_supervisor_launch env q kv.1 kv.2) p).forked = p.forked ∧
      (l.foldl (fun q kv => gb_supervisor_launch env q kv.1 kv.2) p).closedFds
        = p.closedFds ∧
      ∃ extra, (l.foldl (fun q kv => gb_supervisor_launch env q kv.1 kv.2) p).written
        = p.written ++ extra := by
  induction l with
  | nil => intro p; exact ⟨rfl, rfl, rfl, rfl, [], by simp⟩
  | cons kv l ih =>
    intro p
    obtain ⟨h1, h2, h3, h4, e1, h5⟩ := launch_frame env p kv.1 kv.2
    obtain ⟨g1, g2, g3, g4, e2, g5⟩ := ih (gb_supervisor_launch env p kv.1 kv.2)
    simp only [List.foldl_cons]
    refine ⟨g1.trans h1, g2.trans h2, g3.trans h3, g4.trans h4, e1 ++ e2, ?_⟩
    rw [g5, h5, List.append_assoc]

/-- The parent's state when `gb_supervisor_run` reaches the launcher loop. -/
theorem run_parent (env : Env) (p : Parent) (rfd wfd : Nat)
    (hpipe : env.pipe = some (rfd, wfd)) (hf1 : env.fork ≠ -1) (hf0 : env.fork ≠ 0) :
    ∃ launched : List (Nat × List Char),
      gb_supervisor_run env p = .returned true
        { priv := { p.priv with pid := env.fork, channel := some wfd, running := true },
          pipesMade := p.pipesMade + 1,
          forked := p.forked ++ [env.fork],
          written := p.written ++ launched ++
            p.priv.pids.map (fun pid => (wfd, protocolLine 'a' pid)),
          closedFds := p.closedFds ++ [rfd],
          waits := (p.priv.launchers.foldl
            (fun q kv => gb_supervisor_launch env q kv.1 kv.2)
            { p with
              pipesMade := p.pipesMade + 1,
              priv := { p.priv with pid := env.fork, channel := some wfd, running := true },
              forked := p.forked ++ [env.fork],
              closedFds := p.closedFds ++ [rfd] }).waits } ∧
      (p.priv.launchers = [] → launched = []) := by
  obtain ⟨h1, h2, h3, h4, extra, h5⟩ := launchAll_frame env p.priv.launchers
    { p with
      pipesMade := p.pipesMade + 1,
      priv := { p.priv with pid := env.fork, channel := some wfd, running := true },
      forked := p.forked ++ [env.fork],
      closedFds := p.closedFds ++ [rfd] }
  generalize hq : (p.priv.launchers.foldl
      (fun q kv => gb_supervisor_launch env q kv.1 kv.2)
      { p with
        pipesMade := p.pipesMade + 1,
        priv := { p.priv with pid := env.fork, channel := some wfd, running := true },
        forked := p.forked ++ [env.fork],
        closedFds := p.closedFds ++ [rfd] }) = q at h1 h2 h3 h4 h5 ⊢
  have hch : q.priv.channel = some wfd := by rw [h1]
  have hloop := sendPidsLoop_spec wfd (q.priv.pids.length + 1) 0 q hch (by omega)
  refine ⟨extra, ?_, ?_⟩
  · unfold gb_supervisor_run
    simp only [hpipe, hf1, hf0, if_false, ne_eq, not_false_eq_true, if_true]
    rw [hq, hloop]
    simp only [List.drop_zero]
    congr 1
    cases q
    simp only at h1 h2 h3 h4 h5
    subst h1 h2 h3 h4 h5
    simp
  · intro hl
    rw [hl] at hq
    simp only [List.foldl_nil] at hq
    rw [← hq] at h5
    simpa using h5.symm

theorem splitLines_line (l : List Char) (hl : '\n' ∉ l) :
    ∀ cur rest, splitLines cur (l ++ '\n' :: rest)
      = (cur ++ l ++ ['\n']) :: splitLines [] rest := by
  induction l with
  | nil => intro cur rest; simp [splitLines]
  | cons c cs ih =>
    intro cur rest
    have hc : c ≠ '\n' := fun h => hl (by simp [h])
    have hcs : '\n' ∉ cs := fun h => hl (List.mem_cons_of_mem _ h)
    simp only [List.cons_append, splitLines, hc, if_false]
    show splitLines (cur ++ [c]) (cs ++ '\n' :: rest) = _
    rw [ih hcs]
    simp

theorem splitLines_lines (ls : List (List Char)) (h : ∀ l ∈ ls, '\n' ∉ l) :
    splitLines [] ((ls.map (fun l => l ++ ['\n'])).flatten)
      = ls.map (fun l => l ++ ['\n']) := by
  induction ls with
  | nil => rfl
  | cons l ls ih =>
    simp only [List.map_cons, List.flatten_cons, List.append_assoc, List.singleton_append]
    rw [splitLines_line l (h l (by simp)), ih (fun m hm => h m (List.mem_cons_of_mem _ hm))]
    simp

theorem fmtAddPid_no_newline (pid : GPid) : '\n' ∉ fmtAddPid pid := by
  unfold fmtAddPid
  intro h
  simp only [List.mem_cons] at h
  rcases h with h | h | h
  · exact absurd h (by decide)
  · exact absurd h (by decide)
  · have := (fmtUnsigned_spec (toGuint pid)).1 '\n' h
    exact absurd this (by decide)

theorem add_pids_new (ids : List GPid) :
    ∀ p : Parent, p.priv.running = false →
      ids.foldl gb_supervisor_add_pid p
        = { p with priv := { p.priv with
              pids := p.priv.pids ++ ids.filter (fun id => id ≠ 0) } } := by
  induction ids with
  | nil => intro p _; simp
  | cons id ids ih =>
    intro p hp
    simp only [List.foldl_cons]
    by_cases h0 : id = 0
    · have : gb_supervisor_add_pid p id = p := by simp [gb_supervisor_add_pid, h0]
      rw [this, ih p hp]
      simp [h0]
    · have : gb_supervisor_add_pid p id
          = { p with priv := { p.priv with pids := p.priv.pids ++ [id] } } := by
        simp [gb_supervisor_add_pid, h0, hp, g_array_append_val]
      rw [this, ih { p with priv := { p.priv with pids := p.priv.pids ++ [id] } } hp]
      simp [h0]

theorem watchdogRun_adds (ids : List GPid) (hids : ∀ id ∈ ids, isGPid id) :
    ∀ array : List GPid,
      watchdogRun (.listening array)
          (ids.map (fun id => (⟨.normal, protocolLine 'a' id⟩ : ReadLine)))
        = .listening (array ++ ids) := by
  induction ids with
  | nil => intro array; simp [watchdogRun]
  | cons id ids ih =>
    intro array
    have hs := sscanf_protocolLine 'a' id (hids id (by simp))
    simp only [List.map_cons, watchdogRun]
    rw [watchdogStep_two array _ 'a' id hs, if_pos rfl]
    rw [g_array_append_val, ih (fun x hx => hids x (List.mem_cons_of_mem _ hx))]
    simp

theorem readsFrom_lines (p : Parent) (fd : Nat) (ids : List GPid)
    (h : p.written = ids.map (fun id => (fd, protocolLine 'a' id))) :
    readsFrom p fd = ids.map (fun id => (⟨.normal, protocolLine 'a' id⟩ : ReadLine)) := by
  unfold readsFrom bytesWritten
  rw [h]
  have hf : (ids.map (fun id => (fd, protocolLine 'a' id))).filter (fun w => w.1 == fd)
      = ids.map (fun id => (fd, protocolLine 'a' id)) := by
    apply List.filter_eq_self.mpr
    intro w hw
    obtain ⟨id, _, rfl⟩ := List.mem_map.mp hw
    simp
  rw [hf]
  have hm : (ids.map (fun id => (fd, protocolLine 'a' id))).map (fun w => w.2)
      = (ids.map fmtAddPid).map (fun l => l ++ ['\n']) := by
    simp only [List.map_map]
    rfl
  rw [hm, splitLines_lines _ (by
    intro l hl
    obtain ⟨id, _, rfl⟩ := List.mem_map.mp hl
    exact fmtAddPid_no_newline id)]
  simp only [List.map_map]
  rfl

theorem liveAfterStart_eq (ids : List GPid) (env : Env) (rfd wfd : Nat)
    (hids : ∀ id ∈ ids, isGPid id) (hpipe : env.pipe = some (rfd, wfd))
    (hf1 : env.fork ≠ -1) (hf0 : env.fork ≠ 0) :
    liveAfterStart ids env wfd = some (ids.filter (fun id => id ≠ 0)) := by
  unfold liveAfterStart
  rw [add_pids_new ids gb_supervisor_new rfl]
  obtain ⟨launched, hrun, hl⟩ := run_parent env
    { gb_supervisor_new with priv := { gb_supervisor_new.priv with
        pids := gb_supervisor_new.priv.pids ++ ids.filter (fun id => id ≠ 0) } }
    rfd wfd hpipe hf1 hf0
  rw [hl rfl] at hrun
  rw [hrun]
  simp only
  rw [readsFrom_lines _ wfd (ids.filter (fun id => id ≠ 0)) (by simp [gb_supervisor_new])]
  unfold watchdogInit
  rw [watchdogRun_adds _ (fun id hid => hids id (List.mem_of_mem_filter hid))]
  simp

theorem isGPid_ofGuint (u : Nat) : isGPid (ofGuint u) := by
  unfold isGPid ofGuint
  show (-2147483648 : Int) ≤ (if u % 4294967296 < 2147483648 then ((u % 4294967296 : Nat) : Int)
      else ((u % 4294967296 : Nat) : Int) - 4294967296) ∧
    (if u % 4294967296 < 2147483648 then ((u % 4294967296 : Nat) : Int)
      else ((u % 4294967296 : Nat) : Int) - 4294967296) ≤ (2147483647 : Int)
  split <;> omega

theorem addsNonZero_line (pid : GPid) (h : isGPid pid) (h0 : pid ≠ 0) :
    addsNonZero (protocolLine 'a' pid) :=
  ⟨pid, h, h0, rfl, sscanf_protocolLine 'a' pid h⟩

theorem noZero_new : NoZero gb_supervisor_new := by
  refine ⟨rfl, ?_, ?_⟩
  · intro pid h; simp [gb_supervisor_new] at h
  · intro w h; simp [gb_supervisor_new] at h

theorem noZero_add_pid (p : Parent) (pid : GPid) (hp : NoZero p) (hpid : isGPid pid) :
    NoZero (gb_supervisor_add_pid p pid) := by
  obtain ⟨h1, h2, h3⟩ := hp
  unfold gb_supervisor_add_pid
  by_cases h0 : pid = 0
  · rw [if_pos h0]; exact ⟨h1, h2, h3⟩
  · rw [if_neg h0]
    by_cases hr : p.priv.running = true
    · rw [if_pos hr]
      unfold gb_supervisor_send_command
      cases hc : p.priv.channel with
      | none => exact ⟨h1, h2, h3⟩
      | some fd =>
        refine ⟨h1, h2, ?_⟩
        intro w hw
        rcases List.mem_append.mp hw with hw | hw
        · exact h3 w hw
        · simp only [List.mem_singleton] at hw
          subst hw
          exact addsNonZero_line pid hpid h0
    · rw [if_neg hr]
      refine ⟨h1, ?_, h3⟩
      intro x hx
      rcases List.mem_append.mp hx with hx | hx
      · exact h2 x hx
      · simp only [List.mem_singleton] at hx
        subst hx
        exact ⟨hpid, h0⟩

theorem noZero_add_subprocess (p : Parent) (identifier : List Char) (hp : NoZero p) :
    NoZero (gb_supervisor_add_subprocess p identifier) := by
  unfold gb_supervisor_add_subprocess
  cases sscanf_guint64 identifier with
  | none => exact hp
  | some val => exact noZero_add_pid p _ hp (isGPid_ofGuint val)

theorem noZero_shutdown (p : Parent) (hp : NoZero p) : NoZero (gb_supervisor_shutdown p) :=
  ⟨hp.1, hp.2.1, hp.2.2⟩

theorem run_returns (env : Env) (p : Parent) (hf0 : env.fork ≠ 0) :
    ∃ ret p', gb_supervisor_run env p = .returned ret p' := by
  cases hpipe : env.pipe with
  | none => exact ⟨false, p, by simp [gb_supervisor_run, hpipe]⟩
  | some fds =>
    obtain ⟨rfd, wfd⟩ := fds
    by_cases hf1 : env.fork = -1
    · simp only [gb_supervisor_run, hpipe, hf1, if_true]
      exact ⟨false, _, rfl⟩
    · obtain ⟨launched, hrun, _⟩ := run_parent env p rfd wfd hpipe hf1 hf0
      exact ⟨true, _, hrun⟩

theorem noZero_run (env : Env) (p p' : Parent) (ret : Bool) (hp : NoZero p)
    (hrun : gb_supervisor_run env p = .returned ret p') : NoZero p' := by
  obtain ⟨h1, h2, h3⟩ := hp
  cases hpipe : env.pipe with
  | none =>
    simp only [gb_supervisor_run, hpipe] at hrun
    injection hrun with _ hp'
    subst hp'
    exact ⟨h1, h2, h3⟩
  | some fds =>
    obtain ⟨rfd, wfd⟩ := fds
    by_cases hf1 : env.fork = -1
    · simp only [gb_supervisor_run, hpipe, hf1, if_true] at hrun
      injection hrun with _ hp'
      subst hp'
      exact ⟨h1, h2, h3⟩
    · by_cases hf0 : env.fork = 0
      · simp [gb_supervisor_run, hpipe, hf0] at hrun
      · obtain ⟨launched, hrun', hl⟩ := run_parent env p rfd wfd hpipe hf1 hf0
        rw [hrun'] at hrun
        injection hrun with _ hp'
        subst hp'
        rw [hl h1]
        refine ⟨h1, h2, ?_⟩
        intro w hw
        simp only [List.append_nil, List.mem_append, List.mem_map] at hw
        rcases hw with hw | ⟨pid, hpid, rfl⟩
        · exact h3 w hw
        · exact addsNonZero_line pid (h2 pid hpid).1 (h2 pid hpid).2

theorem noZero_calls (calls : List Call) :
    ∀ p p' : Parent, NoZero p → (∀ pid, Call.add_pid pid ∈ calls → isGPid pid) →
      applyCalls p calls = some p' → NoZero p' := by
  induction calls with
  | nil =>
    intro p p' hp _ h
    simp only [applyCalls, Option.some.injEq] at h
    exact h ▸ hp
  | cons c cs ih =>
    intro p p' hp hpid h
    simp only [applyCalls] at h
    cases hc : applyCall p c with
    | none => rw [hc] at h; cases h
    | some q =>
      rw [hc] at h
      refine ih q p' ?_ (fun pid hm => hpid pid (List.mem_cons_of_mem _ hm)) h
      cases c with
      | add_pid pid =>
        simp only [applyCall, Option.some.injEq] at hc
        exact hc ▸ noZero_add_pid p pid hp (hpid pid (by simp))
      | add_subprocess identifier =>
        simp only [applyCall, Option.some.injEq] at hc
        exact hc ▸ noZero_add_subprocess p identifier hp
      | run env =>
        simp only [applyCall] at hc
        split at hc
        · rename_i ret q' hrun
          simp only [Option.some.injEq] at hc
          exact hc ▸ noZero_run env p q' ret hp hrun
        · cases hc
      | shutdown =>
        simp only [applyCall, Option.some.injEq] at hc
        exact hc ▸ noZero_shutdown p hp

theorem calls_return (calls : List Call) :
    ∀ p : Parent, (∀ env, Call.run env ∈ calls → env.fork ≠ 0) →
      ∃ p', applyCalls p calls = some p' := by
  induction calls with
  | nil => intro p _; exact ⟨p, rfl⟩
  | cons c cs ih =>
    intro p hf
    have hq : ∃ q, applyCall p c = some q := by
      cases c with
      | add_pid pid => exact ⟨_, rfl⟩
      | add_subprocess identifier => exact ⟨_, rfl⟩
      | run env =>
        obtain ⟨ret, q, hrun⟩ := run_returns env p (hf env (by simp))
        exact ⟨q, by simp only [applyCall, hrun]⟩
      | shutdown => exact ⟨_, rfl⟩
    obtain ⟨q, hq⟩ := hq
    obtain ⟨p', hp'⟩ := ih q (fun env hm => hf env (List.mem_cons_of_mem _ hm))
    exact ⟨p', by simp only [applyCalls, hq, hp']⟩

/-- On every supervisor reached from a new one by calls of the public interface, a set
running flag comes with an open channel. -/
theorem running_has_channel (calls : List Call) :
    ∀ p p' : Parent, (p.priv.running = true → p.priv.channel.isSome = true) →
      applyCalls p calls = some p' →
      p'.priv.running = true → p'.priv.channel.isSome = true := by
  induction calls with
  | nil =>
    intro p p' hp h
    simp only [applyCalls, Option.some.injEq] at h
    exact h ▸ hp
  | cons c cs ih =>
    intro p p' hp h
    simp only [applyCalls] at h
    cases hc : applyCall p c with
    | none => rw [hc] at h; cases h
    | some q =>
      rw [hc] at h
      refine ih q p' ?_ h
      cases c with
      | add_pid pid =>
        simp only [applyCall, Option.some.injEq] at hc
        subst hc
        unfold gb_supervisor_add_pid gb_supervisor_send_command
        split
        · exact hp
        · split
          · split <;> exact hp
          · exact hp
      | add_subprocess identifier =>
        simp only [applyCall, Option.some.injEq] at hc
        subst hc
        unfold gb_supervisor_add_subprocess gb_supervisor_add_pid gb_supervisor_send_command
        split
        · split
          · exact hp
          · split
            · split <;> exact hp
            · exact hp
        · exact hp
      | run env =>
        simp only [applyCall] at hc
        split at hc
        · rename_i ret q' hrun
          simp only [Option.some.injEq] at hc
          subst hc
          cases hpipe : env.pipe with
          | none =>
            simp only [gb_supervisor_run, hpipe] at hrun
            injection hrun with _ hq
            subst hq
            exact hp
          | some fds =>
            obtain ⟨rfd, wfd⟩ := fds
            by_cases hf1 : env.fork = -1
            · simp only [gb_supervisor_run, hpipe, hf1, if_true] at hrun
              injection hrun with _ hq
              subst hq
              exact hp
            · by_cases hf0 : env.fork = 0
              · simp [gb_supervisor_run, hpipe, hf0] at hrun
              · obtain ⟨launched, hrun', _⟩ := run_parent env p rfd wfd hpipe hf1 hf0
                rw [hrun'] at hrun
                injection hrun with _ hq
                subst hq
                intro _
                rfl
        · cases hc
      | shutdown =>
        simp only [applyCall, Option.some.injEq] at hc
        subst hc
        intro h
        simp [gb_supervisor_shutdown] at h

/-! ## The parent side: claims -/

/-- C7 (as stated, refuted): a pid registered twice before `gb_supervisor_run` is in the
watchdog's live set twice, not exactly once, and a registration of pid 0 leaves no entry
at all. -/
theorem pid_registered_twice_tracked_twice :
    liveAfterStart [5, 5] (plainEnv 3 4 4242) 4 = some [5, 5] ∧
    ([5, 5] : List GPid).count 5 = 2 ∧
    liveAfterStart [0, 7] (plainEnv 3 4 4242) 4 = some [7] := by
  decide

/-- C7 (amended): for every list of pids given to `gb_supervisor_add_pid` on a new
supervisor before `gb_supervisor_run`, once `gb_supervisor_run` has returned `TRUE` and
the watchdog has read the lines the parent wrote, the live set is the list of the
registered non-zero pids in registration order: every non-zero pid is in it as many times
as it was registered, so exactly once when it was registered once, and 0 is not in it. -/
theorem registered_pids_reach_watchdog (ids : List GPid) (env : Env) (rfd wfd : Nat)
    (hids : ∀ id ∈ ids, isGPid id) (hpipe : env.pipe = some (rfd, wfd))
    (hf1 : env.fork ≠ -1) (hf0 : env.fork ≠ 0) :
    ∃ live, liveAfterStart ids env wfd = some live ∧
      live = ids.filter (fun id => id ≠ 0) ∧
      (∀ id, id ≠ 0 → live.count id = ids.count id) ∧
      (∀ id ∈ ids, id ≠ 0 → ids.count id = 1 → live.count id = 1) ∧
      live.count 0 = 0 := by
  have hcount : ∀ id : GPid, id ≠ 0 →
      (ids.filter (fun id => id ≠ 0)).count id = ids.count id := by
    intro id h0
    rw [List.count_filter (by simpa using h0)]
  refine ⟨_, liveAfterStart_eq ids env rfd wfd hids hpipe hf1 hf0, rfl, hcount, ?_, ?_⟩
  · intro id _ h0 h1
    rw [hcount id h0, h1]
  · apply List.count_eq_zero_of_not_mem
    intro h
    simpa using (List.mem_filter.mp h).2

theorem registered_pids_reach_watchdog_witness :
    (∀ id ∈ ([100, 200, 300] : List GPid), isGPid id) ∧
    (plainEnv 3 4 4242).pipe = some (3, 4) ∧ (plainEnv 3 4 4242).fork ≠ -1 ∧
    (plainEnv 3 4 4242).fork ≠ 0 ∧
    ∃ live, liveAfterStart [100, 200, 300] (plainEnv 3 4 4242) 4 = some live ∧
      live = ([100, 200, 300] : List GPid).filter (fun id => id ≠ 0) ∧
      (∀ id, id ≠ 0 → live.count id = ([100, 200, 300] : List GPid).count id) ∧
      (∀ id ∈ ([100, 200, 300] : List GPid), id ≠ 0 →
        ([100, 200, 300] : List GPid).count id = 1 → live.count id = 1) ∧
      live.count 0 = 0 :=
  ⟨by decide, rfl, by decide, by decide,
    registered_pids_reach_watchdog [100, 200, 300] (plainEnv 3 4 4242) 3 4
      (by decide) rfl (by decide) (by decide)⟩

/-- C8: `gb_supervisor_add_pid` with pid 0 changes nothing in any supervisor state (no
line written, pending list as before), and along every sequence of calls of
`gb_supervisor_add_pid`, `gb_supervisor_add_subprocess`, `gb_supervisor_run` and
`gb_supervisor_shutdown` on a new supervisor every line written to a channel is the line
`a <pid>` of a non-zero pid, which the watchdog scans as mode `a` with that non-zero pid;
such a sequence always runs to its end in the process that stays the application. -/
theorem zero_pid_never_transmitted :
    (∀ p : Parent, gb_supervisor_add_pid p 0 = p) ∧
    (∀ (p : Parent) (identifier : List Char), sscanf_guint64 identifier = some 0 →
      gb_supervisor_add_subprocess p identifier = p) ∧
    (∀ (calls : List Call) (p' : Parent),
      (∀ pid, Call.add_pid pid ∈ calls → isGPid pid) →
      applyCalls gb_supervisor_new calls = some p' →
      ∀ w ∈ p'.written, addsNonZero w.2 ∧ w.2 ≠ protocolLine 'a' 0) ∧
    (∀ calls : List Call, (∀ env, Call.run env ∈ calls → env.fork ≠ 0) →
      ∃ p', applyCalls gb_supervisor_new calls = some p') := by
  refine ⟨?_, ?_, ?_, ?_⟩
  · intro p
    simp [gb_supervisor_add_pid]
  · intro p identifier h
    simp [gb_supervisor_add_subprocess, h, gb_supervisor_add_pid, ofGuint]
  · intro calls p' hpid h w hw
    have hz := (noZero_calls calls gb_supervisor_new p' noZero_new hpid h).2.2 w hw
    refine ⟨hz, ?_⟩
    obtain ⟨pid, _, h0, _, hscan⟩ := hz
    intro heq
    rw [heq, sscanf_protocolLine 'a' 0 (by decide)] at hscan
    injection hscan with _ h1
    exact h0 h1.symm
  · intro calls hf
    exact calls_return calls gb_supervisor_new hf

theorem zero_pid_never_transmitted_witness :
    ∀ p', applyCalls gb_supervisor_new
        [.add_pid 0, .add_pid 7, .run (plainEnv 3 4 4242), .add_pid 0,
          .add_subprocess "0".toList, .add_subprocess "4294967296".toList, .add_pid 9,
          .shutdown, .add_pid 3, .run (plainEnv 5 6 4243)] = some p' →
      ∀ w ∈ p'.written, addsNonZero w.2 ∧ w.2 ≠ protocolLine 'a' 0 :=
  fun p' h => zero_pid_never_transmitted.2.2.1 _ p'
    (by
      intro pid hm
      simp only [List.mem_cons, Call.add_pid.injEq, List.mem_singleton, reduceCtorEq,
        false_or, or_false, List.not_mem_nil] at hm
      rcases hm with rfl | rfl | rfl | rfl | rfl <;> decide) h

/-- C9 (as stated, refuted): on a supervisor that is already running, a second
`gb_supervisor_run` whose `pipe` and `fork` succeed returns `TRUE`; it has made a second
pipe and a second watchdog, replaced the channel and the watchdog pid, and written the
pending pid again on the new channel. -/
theorem run_again_starts_second_watchdog :
    gb_supervisor_run (plainEnv 3 4 4242) (gb_supervisor_add_pid gb_supervisor_new 100)
      = .returned true runningSupervisor ∧
    runningSupervisor.priv.running = true ∧
    gb_supervisor_run (plainEnv 5 6 4243) runningSupervisor
      = .returned true
        { priv := { launchers := [], channel := some 6, pids := [100], pid := 4243,
                    running := true },
          pipesMade := 2, forked := [4242, 4243],
          written := [(4, "a 100\n".toList), (6, "a 100\n".toList)],
          closedFds := [3, 5], waits := [] } := by
  decide

/-- C9 (amended): `gb_supervisor_run` does not read the running flag. On a supervisor that
is already running it returns `FALSE` only when `pipe` or `fork` fails, and then the
private data (channel, watchdog pid, running flag, pending list) are as before and no
line is written; when `pipe` fails nothing at all changes, when `fork` fails the pipe
just made is closed again. When both succeed it returns `TRUE`: one more pipe and one
more watchdog exist, the channel and the watchdog pid are replaced, the pending list is
kept, and after the lines of the launches a line `a <pid>` is written to the new channel
for every pending pid. -/
theorem run_while_running (env : Env) (p : Parent) (_hrun : p.priv.running = true) :
    (env.pipe = none → gb_supervisor_run env p = .returned false p) ∧
    (∀ rfd wfd, env.pipe = some (rfd, wfd) → env.fork = -1 →
      ∃ p', gb_supervisor_run env p = .returned false p' ∧
        p'.priv = p.priv ∧ p'.written = p.written ∧ p'.forked = p.forked ∧
        p'.pipesMade = p.pipesMade + 1 ∧ p'.closedFds = p.closedFds ++ [rfd, wfd]) ∧
    (∀ rfd wfd, env.pipe = some (rfd, wfd) → env.fork ≠ -1 → env.fork ≠ 0 →
      ∃ p' launched, gb_supervisor_run env p = .returned true p' ∧
        p'.priv = { p.priv with pid := env.fork, channel := some wfd, running := true } ∧
        p'.pipesMade = p.pipesMade + 1 ∧
        p'.forked = p.forked ++ [env.fork] ∧
        p'.closedFds = p.closedFds ++ [rfd] ∧
        p'.written = p.written ++ launched ++
          p.priv.pids.map (fun pid => (wfd, protocolLine 'a' pid)) ∧
        (p.priv.launchers = [] → launched = [])) := by
  refine ⟨?_, ?_, ?_⟩
  · intro hpipe
    simp only [gb_supervisor_run, hpipe]
  · intro rfd wfd hpipe hf
    simp only [gb_supervisor_run, hpipe, hf, if_true]
    exact ⟨_, rfl, rfl, rfl, rfl, rfl, rfl⟩
  · intro rfd wfd hpipe hf1 hf0
    obtain ⟨launched, hrun, hl⟩ := run_parent env p rfd wfd hpipe hf1 hf0
    exact ⟨_, launched, hrun, rfl, rfl, rfl, rfl, rfl, hl⟩

theorem run_while_running_witness :
    runningSupervisor.priv.running = true ∧
    ∃ p' launched, gb_supervisor_run (plainEnv 5 6 4243) runningSupervisor
        = .returned true p' ∧
      p'.priv = { runningSupervisor.priv with
        pid := (plainEnv 5 6 4243).fork, channel := some 6, running := true } ∧
      p'.pipesMade = runningSupervisor.pipesMade + 1 ∧
      p'.forked = runningSupervisor.forked ++ [(plainEnv 5 6 4243).fork] ∧
      p'.closedFds = runningSupervisor.closedFds ++ [5] ∧
      p'.written = runningSupervisor.written ++ launched ++
        runningSupervisor.priv.pids.map (fun pid => (6, protocolLine 'a' pid)) ∧
      (runningSupervisor.priv.launchers = [] → launched = []) :=
  ⟨rfl, (run_while_running (plainEnv 5 6 4243) runningSupervisor rfl).2.2 5 6 rfl
    (by decide) (by decide)⟩

/-- C10: for a non-zero pid `gb_supervisor_add_pid` does one of two things. On a running
supervisor (whose channel is open) it writes the single line `a <pid>`, the pid as
unsigned decimal followed by a newline, to the channel and changes nothing else, the
pending list included. On a supervisor that is not running it appends the pid to the end
of the pending list and changes nothing else: nothing is written. -/
theorem add_pid_writes_or_queues (p : Parent) (pid : GPid) (fd : Nat) (hpid : pid ≠ 0)
    (hchan : p.priv.running = true → p.priv.channel = some fd) :
    (p.priv.running = true →
      gb_supervisor_add_pid p pid
        = { p with written := p.written ++ [(fd, protocolLine 'a' pid)] } ∧
      protocolLine 'a' pid = 'a' :: ' ' :: (Nat.toDigits 10 (toGuint pid) ++ ['\n'])) ∧
    (p.priv.running = false →
      gb_supervisor_add_pid p pid
        = { p with priv := { p.priv with pids := p.priv.pids ++ [pid] } }) := by
  refine ⟨?_, ?_⟩
  · intro hr
    refine ⟨?_, rfl⟩
    unfold gb_supervisor_add_pid
    rw [if_neg hpid, if_pos hr, send_command_some p fd _ (hchan hr), fmtAddPid_newline]
  · intro hr
    unfold gb_supervisor_add_pid
    rw [if_neg hpid, if_neg (by simp [hr])]
    rfl

theorem add_pid_writes_or_queues_witness :
    (200 : GPid) ≠ 0 ∧
    gb_supervisor_add_pid runningSupervisor 200
      = { runningSupervisor with
          written := runningSupervisor.written ++ [(4, "a 200\n".toList)] } ∧
    gb_supervisor_add_pid gb_supervisor_new 200
      = { gb_supervisor_new with
          priv := { gb_supervisor_new.priv with pids := [200] } } :=
  ⟨by decide,
    ((add_pid_writes_or_queues runningSupervisor 200 4 (by decide) (fun _ => rfl)).1
      rfl).1,
    (add_pid_writes_or_queues gb_supervisor_new 200 0 (by decide)
      (fun h => absurd h (by decide))).2 rfl⟩

/-! ## Shutdown, launches and the round trip: claims -/

theorem watchdogStep_line_listening (array : List GPid) (mode : Char) (pid : GPid)
    (hpid : isGPid pid) (hmode : mode = 'a' ∨ mode = 'r') :
    ∃ array', watchdogStep array ⟨.normal, protocolLine mode pid⟩ = .listening array' := by
  obtain ⟨array', h, _⟩ := watchdogStep_command array (mode, pid) ⟨hmode, hpid⟩
  exact ⟨array', h⟩

/-- C11 (as stated, refuted): the watchdog of a running supervisor has the line `a 100`
to read and no process but the parent holds the write end of the pipe. Before
`gb_supervisor_shutdown` it ends up listening with pid 100 tracked; once
`gb_supervisor_shutdown` has closed the channel it reads the closed write end, sends
`SIGTERM` to pid 100 and exits. -/
theorem shutdown_makes_watchdog_reap :
    runningSupervisor.priv.running = true ∧ runningSupervisor.priv.channel = some 4 ∧
    closedBetween runningSupervisor (gb_supervisor_shutdown runningSupervisor) = [4] ∧
    watchdogRun watchdogInit (channelPipe 4 0 ["a 100\n".toList]).reads
      = .listening [100] ∧
    watchdogRun watchdogInit
        ((channelPipe 4 0 ["a 100\n".toList]).afterCloses
          (closedBetween runningSupervisor (gb_supervisor_shutdown runningSupervisor))).reads
      = .exited [(100, SIGTERM)] EXIT_SUCCESS := by
  decide

/-- C11 (amended): on a running supervisor with channel `fd`, `gb_supervisor_shutdown`
closes the channel's descriptor and clears the channel and the running flag and does
nothing else: it writes no line and starts no process. In the pipe this closes the
parent's write end. A watchdog that is listening with live set `array` and comes to live
set `final` by the lines still unread was blocked after those lines before the shutdown.
After it, when no other process holds the write end, its next read sees the write end
closed, it sends `SIGTERM` to every entry of `final` and exits with `EXIT_SUCCESS`;
while another process holds the write end it stays listening with `final`. -/
theorem shutdown_closes_channel_watchdog_reaps (p : Parent) (fd others : Nat)
    (unread : List (List Char)) (array : List GPid)
    (_hrun : p.priv.running = true) (hchan : p.priv.channel = some fd) :
    gb_supervisor_shutdown p
      = { p with priv := { p.priv with channel := none, running := false },
                 closedFds := p.closedFds ++ [fd] } ∧
    (gb_supervisor_shutdown p).written = p.written ∧
    (gb_supervisor_shutdown p).forked = p.forked ∧
    (gb_supervisor_shutdown p).pipesMade = p.pipesMade ∧
    (gb_supervisor_shutdown p).priv.pids = p.priv.pids ∧
    closedBetween p (gb_supervisor_shutdown p) = [fd] ∧
    (channelPipe fd others unread).afterCloses (closedBetween p (gb_supervisor_shutdown p))
      = { channelPipe fd others unread with parentOpen := false } ∧
    (∀ final, watchdogRun (.listening array) (unread.map (fun l => ⟨.normal, l⟩))
        = .listening final →
      watchdogRun (.listening array) (channelPipe fd others unread).reads
        = .listening final) ∧
    (others = 0 →
      ∀ final, watchdogRun (.listening array) (unread.map (fun l => ⟨.normal, l⟩))
          = .listening final →
        watchdogRun (.listening array)
            ((channelPipe fd others unread).afterCloses
              (closedBetween p (gb_supervisor_shutdown p))).reads
          = .exited (final.map (fun pid => (pid, SIGTERM))) EXIT_SUCCESS) ∧
    (others ≠ 0 →
      ∀ final, watchdogRun (.listening array) (unread.map (fun l => ⟨.normal, l⟩))
          = .listening final →
        watchdogRun (.listening array)
            ((channelPipe fd others unread).afterCloses
              (closedBetween p (gb_supervisor_shutdown p))).reads
          = .listening final) := by
  have hshut : gb_supervisor_shutdown p
      = { p with priv := { p.priv with channel := none, running := false },
                 closedFds := p.closedFds ++ [fd] } := by
    simp only [gb_supervisor_shutdown, hchan]
  have hclosed : closedBetween p (gb_supervisor_shutdown p) = [fd] := by
    unfold closedBetween
    rw [hshut]
    simp
  have hpipe : (channelPipe fd others unread).afterCloses
      (closedBetween p (gb_supervisor_shutdown p))
      = { channelPipe fd others unread with parentOpen := false } := by
    rw [hclosed]
    simp [Pipe.afterCloses, Pipe.parentCloses, channelPipe]
  refine ⟨hshut, rfl, rfl, rfl, rfl, hclosed, hpipe, ?_, ?_, ?_⟩
  · intro final hlive
    simp only [Pipe.reads, channelPipe, Bool.true_eq_false, false_and, if_false,
      List.append_nil]
    exact hlive
  · intro h0 final hlive
    rw [hpipe]
    simp only [Pipe.reads, channelPipe, h0, and_self, if_true]
    rw [watchdogRun_append, hlive]
    simp only [watchdogRun]
    rw [watchdogStep_not_normal final ReadLine.closed (by decide), kill_targets_eq]
    rfl
  · intro h0 final hlive
    rw [hpipe]
    simp only [Pipe.reads, channelPipe, h0, and_false, if_false, List.append_nil]
    exact hlive

theorem shutdown_closes_channel_watchdog_reaps_witness :
    runningSupervisor.priv.running = true ∧ runningSupervisor.priv.channel = some 4 ∧
    (gb_supervisor_shutdown runningSupervisor).written = runningSupervisor.written ∧
    watchdogRun (.listening []) (["a 100\n".toList].map (fun l => ⟨.normal, l⟩))
      = .listening [100] ∧
    watchdogRun (.listening [])
        ((channelPipe 4 0 ["a 100\n".toList]).afterCloses
          (closedBetween runningSupervisor (gb_supervisor_shutdown runningSupervisor))).reads
      = .exited ([100].map (fun pid => (pid, SIGTERM))) EXIT_SUCCESS :=
  ⟨rfl, rfl,
    (shutdown_closes_channel_watchdog_reaps runningSupervisor 4 0 ["a 100\n".toList] []
      rfl rfl).2.1,
    by decide,
    (shutdown_closes_channel_watchdog_reaps runningSupervisor 4 0 ["a 100\n".toList] []
      rfl rfl).2.2.2.2.2.2.2.2.1 rfl [100] (by decide)⟩

/-- C12 (as stated, refuted): a subprocess is spawned by `gb_supervisor_launch` on a
running supervisor (the line `a 777` is written and the wait registered), then the
supervisor is shut down; when `wait_cb` runs for that subprocess after a wait that
finished successfully, it writes no line. -/
theorem wait_cb_after_shutdown_writes_nothing :
    (gb_supervisor_launch (spawningEnv 5 6 4243 "777".toList) runningSupervisor 1 []).written
      = [(4, "a 100\n".toList), (4, "a 777\n".toList)] ∧
    (gb_supervisor_launch (spawningEnv 5 6 4243 "777".toList) runningSupervisor 1 []).waits
      = ["777".toList] ∧
    wait_cb (gb_supervisor_shutdown
        (gb_supervisor_launch (spawningEnv 5 6 4243 "777".toList) runningSupervisor 1 []))
      "777".toList true
      = .ok (gb_supervisor_shutdown
        (gb_supervisor_launch (spawningEnv 5 6 4243 "777".toList) runningSupervisor 1 [])) ∧
    (gb_supervisor_shutdown
      (gb_supervisor_launch (spawningEnv 5 6 4243 "777".toList) runningSupervisor 1 [])).written
      = [(4, "a 100\n".toList), (4, "a 777\n".toList)] := by
  refine ⟨by decide, by decide, rfl, by decide⟩

/-- C12 (amended): on a supervisor whose channel `fd` is open, a successful spawn with
identifier `s` makes `gb_supervisor_launch` write exactly the one line `a s` and register
the wait, and a failed spawn writes nothing and changes nothing. When `wait_cb` runs
after a wait that finished successfully, with the channel open, it returns having written
exactly the one line `r s` and changed nothing else, so that launch followed by the
callback has written `a s` then `r s`; on a supervisor that was shut down it returns
without writing. -/
theorem launch_and_wait_lines (env : Env) (p : Parent) (fd : Nat) (launcher : Launcher)
    (argv : List (List Char)) (hchan : p.priv.channel = some fd) :
    (∀ s, env.spawnv launcher argv = some s →
      gb_supervisor_launch env p launcher argv
        = { p with written := p.written ++ [(fd, identifierLine 'a' s)],
                   waits := p.waits ++ [s] } ∧
      wait_cb (gb_supervisor_launch env p launcher argv) s true
        = .ok { p with
            written :=
              p.written ++ [(fd, identifierLine 'a' s), (fd, identifierLine 'r' s)],
            waits := p.waits ++ [s] }) ∧
    (env.spawnv launcher argv = none → gb_supervisor_launch env p launcher argv = p) ∧
    (∀ s, wait_cb p s true
      = .ok { p with written := p.written ++ [(fd, identifierLine 'r' s)] }) ∧
    (∀ s, wait_cb (gb_supervisor_shutdown p) s true = .ok (gb_supervisor_shutdown p)) := by
  have hwait : ∀ (q : Parent) s, q.priv.channel = some fd → wait_cb q s true
      = .ok { q with written := q.written ++ [(fd, identifierLine 'r' s)] } := by
    intro q s hq
    unfold wait_cb
    rw [if_pos rfl, send_command_some q fd _ hq]
    rfl
  have hlaunch : ∀ s, env.spawnv launcher argv = some s →
      gb_supervisor_launch env p launcher argv
        = { p with written := p.written ++ [(fd, identifierLine 'a' s)],
                   waits := p.waits ++ [s] } := by
    intro s hs
    unfold gb_supervisor_launch
    simp only [hs]
    rw [send_command_some p fd _ hchan]
    rfl
  refine ⟨?_, ?_, ?_, ?_⟩
  · intro s hs
    refine ⟨hlaunch s hs, ?_⟩
    rw [hlaunch s hs, hwait
      { p with written := p.written ++ [(fd, identifierLine 'a' s)],
               waits := p.waits ++ [s] } s hchan]
    simp
  · intro hs
    unfold gb_supervisor_launch
    simp only [hs]
  · intro s
    exact hwait p s hchan
  · intro s
    rfl

theorem launch_and_wait_lines_witness :
    runningSupervisor.priv.channel = some 4 ∧
    (spawningEnv 5 6 4243 "777".toList).spawnv 1 [] = some "777".toList ∧
    wait_cb (gb_supervisor_launch (spawningEnv 5 6 4243 "777".toList)
        runningSupervisor 1 []) "777".toList true
      = .ok { runningSupervisor with
          written :=
            runningSupervisor.written
              ++ [(4, identifierLine 'a' "777".toList), (4, identifierLine 'r' "777".toList)],
          waits := runningSupervisor.waits ++ ["777".toList] } :=
  ⟨rfl, rfl,
    ((launch_and_wait_lines (spawningEnv 5 6 4243 "777".toList) runningSupervisor 4 1 []
      rfl).1 "777".toList rfl).2⟩

/-- C13: round trip between the encoder of the application and the decoder of the
watchdog. For every 32-bit pid, also one that is negative as a signed `GPid`, and each
mode `a` or `r`, the line made of the mode, a blank, `(guint)pid` in unsigned decimal and
a newline is scanned by `%c %u` as exactly two fields, that mode and that pid; the
watchdog never takes it as malformed and keeps listening. The line with mode `a` is what
`gb_supervisor_add_pid` and `gb_supervisor_run` hand to the channel. -/
theorem line_round_trip (pid : GPid) (mode : Char) (hpid : isGPid pid)
    (hmode : mode = 'a' ∨ mode = 'r') :
    protocolLine mode pid = mode :: ' ' :: (Nat.toDigits 10 (toGuint pid) ++ ['\n']) ∧
    fmtAddPid pid ++ ['\n'] = protocolLine 'a' pid ∧
    sscanf_mode_pid (protocolLine mode pid) = .two mode pid ∧
    (sscanf_mode_pid (protocolLine mode pid)).ret = 2 ∧
    malformed (protocolLine mode pid) = false ∧
    ∀ array, ∃ array',
      watchdogStep array ⟨.normal, protocolLine mode pid⟩ = .listening array' := by
  have hs := sscanf_protocolLine mode pid hpid
  refine ⟨rfl, rfl, hs, by rw [hs]; rfl, ?_, ?_⟩
  · cases hm : malformed (protocolLine mode pid) with
    | false => rfl
    | true =>
      obtain ⟨array', h⟩ := watchdogStep_line_listening [] mode pid hpid hmode
      rw [watchdogStep_malformed [] _ hm, kill_targets_eq] at h
      cases h
  · intro array
    exact watchdogStep_line_listening array mode pid hpid hmode

theorem line_round_trip_witness :
    isGPid (-1) ∧ isGPid (-2147483648) ∧
    protocolLine 'a' (-1) = "a 4294967295\n".toList ∧
    sscanf_mode_pid (protocolLine 'a' (-1)) = .two 'a' (-1) ∧
    sscanf_mode_pid (protocolLine 'r' (-2147483648)) = .two 'r' (-2147483648) :=
  ⟨by decide, by decide, by decide,
    (line_round_trip (-1) 'a' (by decide) (Or.inl rfl)).2.2.1,
    (line_round_trip (-2147483648) 'r' (by decide) (Or.inr rfl)).2.2.1⟩

end GbSupervisor
